import Mathlib

/-!
Verification of the conversation state machine of the Personal-Expense-Journal
bot (`src/bot/`).  The Python source is shallowly embedded: pure helpers become
Lean functions, the per-user session plus the ledger become an explicit `World`
record threaded through the transition functions, Python `float` values are
modelled by `PyFloat` (exact rationals plus the special values `inf`, `-inf`,
`nan`; decimal literals are kept exact instead of being rounded to binary64,
which preserves the sign and success/failure behaviour the claims depend on),
and fallible operations return `Option`.
-/

/-- Model of a Python `float` value: a finite value (kept as an exact rational)
or one of the special values infinity, minus infinity, NaN. -/
inductive PyFloat where
  | finite (q : ℚ)
  | inf
  | neginf
  | nan
deriving DecidableEq, Repr

/-- Python `value <= 0` on a float: `nan <= 0` is `False`, `inf <= 0` is
`False`, `-inf <= 0` is `True`.  Used by `parse_amount`'s rejection test. -/
def pyLe0 : PyFloat → Bool
  | PyFloat.finite q => decide (q.num ≤ 0)
  | PyFloat.inf => false
  | PyFloat.neginf => true
  | PyFloat.nan => false

/-- Strict positivity of a Python float (`value > 0`); `nan > 0` is `False`.
On a finite exact rational this is positivity of its numerator. -/
def pyIsPos : PyFloat → Bool
  | PyFloat.finite q => decide (0 < q.num)
  | PyFloat.inf => true
  | PyFloat.neginf => false
  | PyFloat.nan => false

/-- Whitespace characters stripped by Python `str.strip` / `float` (the ASCII
subset: space, tab, newline, carriage return, vertical tab, form feed). -/
def isPyWs (c : Char) : Bool :=
  c = ' ' || c = '\t' || c = '\n' || c = '\r' || c = Char.ofNat 11 || c = Char.ofNat 12

/-- Python `str.strip()` on a character list. -/
def pyStripList (cs : List Char) : List Char :=
  ((cs.dropWhile isPyWs).reverse.dropWhile isPyWs).reverse

/-- Python `str.strip()`. -/
def pyStrip (s : String) : String :=
  String.mk (pyStripList s.data)

/-- Numeric value of a decimal digit character. -/
def digitVal (c : Char) : Nat := c.toNat - 48

/-- Value of a list of decimal digit characters, most significant first. -/
def digitsToNat (ds : List Char) : Nat :=
  ds.foldl (fun a c => a * 10 + digitVal c) 0

/-- Decimal literal accepted by Python `float` after sign removal:
`[digits] ['.' [digits]] [('e'|'E') ['+'|'-'] digits]`, at least one digit in
the integer or fractional part, nothing left over.  Returns the literal's
parts `(mantissa digits as a number, fractional length, exponent)`.
(Underscore digit separators, accepted by CPython, are not modelled; every
underscored literal denotes the same value as its underscore-free form, so the
claims checked here are unaffected.) -/
def parseDecimalLit (cs : List Char) : Option (ℕ × ℕ × ℤ) :=
  let ip := cs.takeWhile Char.isDigit
  let rest := cs.dropWhile Char.isDigit
  let hasDot : Bool := match rest with | '.' :: _ => true | _ => false
  let afterDot := match rest with | '.' :: r => r | _ => rest
  let fp := if hasDot then afterDot.takeWhile Char.isDigit else []
  let rest2 := if hasDot then afterDot.dropWhile Char.isDigit else rest
  if ip = [] ∧ fp = [] then none
  else
    let mant : ℕ := digitsToNat (ip ++ fp)
    match rest2 with
    | [] => some (mant, fp.length, 0)
    | e :: r3 =>
      if e = 'e' ∨ e = 'E' then
        let esign : ℤ := match r3 with | '-' :: _ => -1 | _ => 1
        let r4 := match r3 with | '-' :: t => t | '+' :: t => t | t => t
        let ed := r4.takeWhile Char.isDigit
        let r5 := r4.dropWhile Char.isDigit
        if ed = [] ∨ r5 ≠ [] then none
        else some (mant, fp.length, esign * (digitsToNat ed : ℤ))
      else none

/-- The exact rational `±mant / 10^fracLen × 10^exp` denoted by a decimal
literal, built with `mkRat` and integer arithmetic only. -/
def qOfParts (neg : Bool) (mant fracLen : ℕ) (exp : ℤ) : ℚ :=
  let n : ℤ := if neg then -(mant : ℤ) else (mant : ℤ)
  if 0 ≤ exp then mkRat (n * ((10 : ℕ) ^ exp.toNat : ℕ)) ((10 : ℕ) ^ fracLen)
  else mkRat n ((10 : ℕ) ^ fracLen * (10 : ℕ) ^ (-exp).toNat)

/-- Model of Python `float(str)`: strip whitespace, take an optional sign, then
either (case-insensitively) `inf` / `infinity` / `nan` or a decimal literal. -/
def pyFloatOfString (s : String) : Option PyFloat :=
  let cs := pyStripList s.data
  let neg : Bool := match cs with | '-' :: _ => true | _ => false
  let body := match cs with | '-' :: t => t | '+' :: t => t | t => t
  let low := body.map Char.toLower
  if low = "inf".data ∨ low = "infinity".data then
    some (if neg then PyFloat.neginf else PyFloat.inf)
  else if low = "nan".data then some PyFloat.nan
  else
    match parseDecimalLit body with
    | none => none
    | some (mant, fracLen, exp) => some (PyFloat.finite (qOfParts neg mant fracLen exp))

/-- `parse_amount` from `src/bot/services/parsing.py` (lines 5-39): strip the
text, normalize `,` to `.`, drop one leading `+` (plus following whitespace,
the source's `s[1:].lstrip()`), call `float`, and reject when `value <= 0`. -/
def parse_amount (text : String) : Option PyFloat :=
  let s1 := (pyStripList text.data).map (fun c => if c = ',' then '.' else c)
  let s2 := match s1 with
    | '+' :: t => t.dropWhile isPyWs
    | t => t
  match pyFloatOfString (String.mk s2) with
  | none => none
  | some v => if pyLe0 v then none else some v

/-- The FSM states from `bot/constants.py` (the constants module itself is not
under `src/`; the state vocabulary is modelled from the spec's `UserSession`
enum `IDLE, ASK_CATEGORY, ASK_STORE, ASK_AMOUNT, ASK_NOTE, CONFIRM`, which the
handlers in `src/` compare only for equality). -/
inductive FsmState where
  | IDLE
  | ASK_CATEGORY
  | ASK_STORE
  | ASK_AMOUNT
  | ASK_NOTE
  | CONFIRM
deriving DecidableEq, Repr

/-- The session payload dictionary.  The handlers access only the keys
`category`, `store`, `amount`, `note`, `expect_text`, `last_msg_id`, always via
`payload.get`, so a key that is absent and a key stored as `None` behave
identically; both are modelled as `none`.  An empty dict is all-`none`. -/
structure Payload where
  category : Option String := none
  store : Option String := none
  amount : Option PyFloat := none
  note : Option String := none
  expect_text : Option String := none
  last_msg_id : Option Int := none
deriving DecidableEq, Repr

/-- One row of the `expenses` ledger as written by `insert_expense`
(`src/bot/repo/expenses_repo.py` lines 5-37): category/store/note are stored
stripped, the amount as passed (after Python's identity `float(amount)`). -/
structure Expense where
  category : String
  store : String
  amount : PyFloat
  note : String
deriving DecidableEq, Repr

/-- Tags for the outbound messages the handlers send, one per `sendMessage`
call site (`_say_html`, `_send_and_remember`, and the plain sends). -/
inductive OutMsg where
  | cancelNotice
  | confirmCancelNotice
  | savedNotice
  | missingDataError
  | promptNewCategory
  | promptNewStore
  | promptStoreChoice
  | promptAmount
  | promptNote
  | promptConfirm
  | categoryChoice
  | mainMenu
  | emptyCategoryRetry
  | emptyStoreRetry
  | badAmountRetry
  | startMenu
  | helpText
  | reportOutput
  | unknownCallbackMsg
  | unknownTextMsg
deriving DecidableEq, Repr

/-- The state visible to one user's dialog: the stored session (absence of a
row is equivalent to `IDLE, {}`, so the row and its default are collapsed),
the expense ledger rows inserted so far, the outbound messages sent, and the
next Telegram message id the transport will hand back (each `sendMessage`
returns a fresh id; sends are modelled as succeeding). -/
structure World where
  fsm : FsmState := FsmState.IDLE
  payload : Payload := {}
  expenses : List Expense := []
  sent : List OutMsg := []
  nextMsgId : Int := 1
deriving DecidableEq, Repr

/-- Find the first occurrence of `"::"` and split around it (Python
`data.split("::", 1)` guarded by `"::" in data`). -/
def splitOnDoubleColon : List Char → Option (List Char × List Char)
  | [] => none
  | ':' :: ':' :: rest => some ([], rest)
  | c :: rest => (splitOnDoubleColon rest).map (fun p => (c :: p.1, p.2))

/-- `parse_callback` from `src/bot/handlers/add_expense_steps.py` lines 18-37:
`'CANCEL'` maps to `('CANCEL', '')`, `KIND::VALUE` splits at the first `::`,
anything else maps to `('', '')`. -/
def parse_callback (data : String) : String × String :=
  if data = "CANCEL" then ("CANCEL", "")
  else
    match splitOnDoubleColon data.data with
    | some (k, v) => (String.mk k, String.mk v)
    | none => ("", "")

/-- `tg.sendMessage`: append the message, hand back its fresh message id. -/
def sendMsg (w : World) (m : OutMsg) : World × Int :=
  ({ w with sent := w.sent ++ [m], nextMsgId := w.nextMsgId + 1 }, w.nextMsgId)

/-- `_say_html`: a one-off send, the returned message id is dropped. -/
def sayHtml (w : World) (m : OutMsg) : World :=
  (sendMsg w m).1

/-- `_delete_last` / `_delete_menu_message`: a best-effort external
`deleteMessage` whose failure is swallowed; it touches no session state. -/
def deleteLast (w : World) : World := w

/-- `reset_state` from `src/bot/repo/state_repo.py` lines 60-80: upsert the row
to state `IDLE` with payload `'{}'`. -/
def resetSession (w : World) : World :=
  { w with fsm := FsmState.IDLE, payload := {} }

/-- `_send_and_remember`: re-read the session, best-effort delete of the
previous prompt, send the new prompt, then `set_state` with the same state and
`payload['last_msg_id']` set to the new message id. -/
def sendAndRemember (w : World) (m : OutMsg) : World :=
  let wi := deleteLast w
  let (w1, mid) := sendMsg wi m
  { w1 with payload := { w.payload with last_msg_id := some mid } }

/-- The `expenses` schema constraint on a new row's amount
(`src/bot/repo/db.py`, `amount REAL NOT NULL CHECK (amount > 0)`): SQLite
stores a float NaN as `NULL`, which then fails `NOT NULL`; zero, negative and
`-inf` amounts fail the `CHECK`; a positive finite amount and `+inf` pass. -/
def dbAmountOK : PyFloat → Bool
  | PyFloat.finite q => decide (0 < q.num)
  | PyFloat.inf => true
  | PyFloat.neginf => false
  | PyFloat.nan => false

/-- `insert_expense` (`src/bot/repo/expenses_repo.py` lines 5-37): execute the
INSERT, strings stored stripped.  The schema (`src/bot/repo/db.py`,
`amount REAL NOT NULL CHECK (amount > 0)`) rejects an amount that fails
`dbAmountOK` with `sqlite3.IntegrityError` before any row is written,
modelled as `none`. -/
def insert_expense (w : World) (category store : String) (amount : PyFloat) (note : String) :
    Option World :=
  if dbAmountOK amount then
    some { w with expenses :=
      w.expenses ++ [⟨pyStrip category, pyStrip store, amount, pyStrip note⟩] }
  else none

/-- `AddExpenseStepsHandler._cb_cancel` (lines 148-153): delete the last
prompt, reset the session, announce the cancellation; consumed. -/
def cbCancel (w : World) : World × Option Bool :=
  let w1 := deleteLast w
  let w2 := resetSession w1
  (sayHtml w2 OutMsg.cancelNotice, some false)

/-- `AddExpenseStepsHandler._cb_category` (lines 155-170). -/
def cbCategory (w : World) (value : String) : World × Option Bool :=
  if w.fsm ≠ FsmState.ASK_CATEGORY then (w, some true)
  else if value = "NEW" then
    let w1 := { w with fsm := FsmState.ASK_CATEGORY,
                       payload := { w.payload with expect_text := some "CATEGORY" } }
    (sendAndRemember w1 OutMsg.promptNewCategory, some false)
  else
    let w1 := { w with fsm := FsmState.ASK_STORE,
                       payload := { w.payload with category := some value, expect_text := none } }
    (sendAndRemember w1 OutMsg.promptStoreChoice, some false)

/-- `AddExpenseStepsHandler._cb_store` (lines 172-187). -/
def cbStore (w : World) (value : String) : World × Option Bool :=
  if w.fsm ≠ FsmState.ASK_STORE then (w, some true)
  else if value = "NEW" then
    let w1 := { w with fsm := FsmState.ASK_STORE,
                       payload := { w.payload with expect_text := some "STORE" } }
    (sendAndRemember w1 OutMsg.promptNewStore, some false)
  else
    let p1 := { w.payload with store := some value, expect_text := some "AMOUNT" }
    let w1 := { w with fsm := FsmState.ASK_AMOUNT, payload := p1 }
    (sendAndRemember w1 OutMsg.promptAmount, some false)

/-- `AddExpenseStepsHandler._cb_note` (lines 189-201).  Note the fall-through:
a `NOTE::` value other than `SKIP` returns `True` even when the state is
`ASK_NOTE`. -/
def cbNote (w : World) (value : String) : World × Option Bool :=
  if w.fsm ≠ FsmState.ASK_NOTE then (w, some true)
  else if value = "SKIP" then
    let w1 := { w with fsm := FsmState.CONFIRM,
                       payload := { w.payload with note := some "", expect_text := none } }
    (sendAndRemember w1 OutMsg.promptConfirm, some false)
  else (w, some true)

/-- `AddExpenseStepsHandler._cb_confirm` (lines 203-266).  `value = "SAVE"`
checks `not category or not store or amount is None` (so `None` or empty
strings are "missing"); a save inserts the row, then deletes the prompt,
resets, and sends the saved notice; a value other than `SAVE`/`CANCEL` falls
off the end of the Python function and returns `None`, modelled as `none`.
The `insert_expense` call is the first action of the save branch: when it
raises `IntegrityError` the exception aborts the handler and the rest of the
dispatch chain (it is caught only by the long-polling loop's per-update
handler), so the session, ledger and outbox are left untouched; the aborted
chain is modelled by the consumed result, which also runs no later
handler. -/
def cbConfirm (w : World) (value : String) : World × Option Bool :=
  if w.fsm ≠ FsmState.CONFIRM then (w, some true)
  else if value = "SAVE" then
    let category := w.payload.category
    let store := w.payload.store
    let amount := w.payload.amount
    let note := (w.payload.note).getD ""
    if category.getD "" = "" ∨ store.getD "" = "" ∨ amount = none then
      let w1 := resetSession (deleteLast w)
      (sayHtml w1 OutMsg.missingDataError, some false)
    else
      match insert_expense w (category.getD "") (store.getD "")
        (amount.getD PyFloat.nan) note with
      | some w1 =>
        let w2 := resetSession (deleteLast w1)
        ((sendMsg w2 OutMsg.savedNotice).1, some false)
      | none => (w, some false)
  else if value = "CANCEL" then
    let w1 := resetSession (deleteLast w)
    (sayHtml w1 OutMsg.confirmCancelNotice, some false)
  else (w, none)

/-- `AddExpenseStepsHandler._text_new_category` (lines 270-278). -/
def textNewCategory (w : World) (text : String) : World × Option Bool :=
  if text = "" then (sendAndRemember w OutMsg.emptyCategoryRetry, some false)
  else
    let w1 := { w with fsm := FsmState.ASK_STORE,
                       payload := { w.payload with category := some text, expect_text := none } }
    (sendAndRemember w1 OutMsg.promptStoreChoice, some false)

/-- `AddExpenseStepsHandler._text_new_store` (lines 280-288). -/
def textNewStore (w : World) (text : String) : World × Option Bool :=
  if text = "" then (sendAndRemember w OutMsg.emptyStoreRetry, some false)
  else
    let p1 := { w.payload with store := some text, expect_text := some "AMOUNT" }
    let w1 := { w with fsm := FsmState.ASK_AMOUNT, payload := p1 }
    (sendAndRemember w1 OutMsg.promptAmount, some false)

/-- `AddExpenseStepsHandler._text_amount` (lines 290-299): a failed
`parse_amount` re-prompts with no transition; success stores the amount and
moves to `ASK_NOTE`. -/
def textAmount (w : World) (text : String) : World × Option Bool :=
  match parse_amount text with
  | none => (sendAndRemember w OutMsg.badAmountRetry, some false)
  | some a =>
    let p1 := { w.payload with amount := some a, expect_text := some "NOTE" }
    let w1 := { w with fsm := FsmState.ASK_NOTE, payload := p1 }
    (sendAndRemember w1 OutMsg.promptNote, some false)

/-- `AddExpenseStepsHandler._text_note` (lines 301-306). -/
def textNote (w : World) (text : String) : World × Option Bool :=
  let w1 := { w with fsm := FsmState.CONFIRM,
                     payload := { w.payload with note := some text, expect_text := none } }
  (sendAndRemember w1 OutMsg.promptConfirm, some false)

/-- The callback namespaces registered in `self.callback_handlers`. -/
def fsmCallbackKinds : List String := ["CATEGORY", "STORE", "NOTE", "CONFIRM", "CANCEL"]

/-- The `expect_text` keys registered in `self.text_handlers`. -/
def fsmTextKinds : List String := ["CATEGORY", "STORE", "AMOUNT", "NOTE"]

/-- The four mid-dialog states accepted by `can_handle` for text input. -/
def midDialog (s : FsmState) : Bool :=
  s = FsmState.ASK_CATEGORY ∨ s = FsmState.ASK_STORE ∨
    s = FsmState.ASK_AMOUNT ∨ s = FsmState.ASK_NOTE

/-- An inbound event for one user: a callback query with its `data`, or a text
message with its raw text. -/
inductive Event where
  | callback (data : String)
  | text (s : String)
deriving DecidableEq, Repr

/-- `AddExpenseStepsHandler.can_handle` (lines 100-116). -/
def fsmCanHandle (w : World) : Event → Bool
  | Event.callback data => (parse_callback data).1 ∈ fsmCallbackKinds
  | Event.text _ =>
    ((w.payload.expect_text).getD "" ∈ fsmTextKinds) ∧ midDialog w.fsm

/-- The callback branch of `AddExpenseStepsHandler.handle` (lines 118-133):
route on the parsed kind; an unregistered kind returns `True`
(`answerCallbackQuery` on a consumed event is an external no-op). -/
def fsmHandleCallback (w : World) (data : String) : World × Option Bool :=
  let kv := parse_callback data
  if kv.1 = "CANCEL" then cbCancel w
  else if kv.1 = "CATEGORY" then cbCategory w kv.2
  else if kv.1 = "STORE" then cbStore w kv.2
  else if kv.1 = "NOTE" then cbNote w kv.2
  else if kv.1 = "CONFIRM" then cbConfirm w kv.2
  else (w, some true)

/-- The message branch of `AddExpenseStepsHandler.handle` (lines 135-146):
strip the text, then route on the session's `expect_text`. -/
def fsmHandleText (w : World) (rawText : String) : World × Option Bool :=
  let text := pyStrip rawText
  let expect := (w.payload.expect_text).getD ""
  if expect = "CATEGORY" then textNewCategory w text
  else if expect = "STORE" then textNewStore w text
  else if expect = "AMOUNT" then textAmount w text
  else if expect = "NOTE" then textNote w text
  else (w, some true)

/-- Modelled from the spec: the menu callback tokens from `bot/constants.py`
(the constants module is not under `src/`).  The spec describes the menu "add"
trigger as external to the FSM, so the tokens are modelled as distinct strings
that contain no `::` and are none of the FSM's own tokens. -/
def MENU_ADD : String := "MENU_ADD"

/-- Modelled from the spec: the main-menu token (see `MENU_ADD`). -/
def MENU_MAIN : String := "MENU_MAIN"

/-- Modelled from the spec: remaining menu tokens routed to the read-only
report/export handlers (see `MENU_ADD`). -/
def menuOtherTokens : List String :=
  ["MENU_RECENT", "MENU_SUM10", "MENU_REPORT", "MENU_EXPORT_CSV", "MENU_HELP"]

/-- `MenuCallbacksHandler.can_handle` (`src/bot/handlers/menu_callbacks.py`
lines 43-56): callback data must be one of the menu tokens. -/
def menuCanHandle (data : String) : Bool :=
  data = MENU_ADD ∨ data = MENU_MAIN ∨ data ∈ menuOtherTokens

/-- `MenuCallbacksHandler.handle` (lines 58-110): `MENU_ADD` deletes the menu
message, sends the category choice, stores a fresh payload holding only the
new prompt's `last_msg_id`, and sets state `ASK_CATEGORY`; `MENU_MAIN` only
sends the menu; the other menu tokens return `True` for the later read-only
handlers. -/
def menuHandle (w : World) (data : String) : World × Option Bool :=
  let w0 := deleteLast w
  if data = MENU_ADD then
    let (w1, mid) := sendMsg w0 OutMsg.categoryChoice
    ({ w1 with fsm := FsmState.ASK_CATEGORY, payload := { last_msg_id := some mid } },
      some false)
  else if data = MENU_MAIN then
    ((sendMsg w0 OutMsg.mainMenu).1, some false)
  else (w0, some true)

/-- One event through the registered handler chain of `bot/__main__.py`
(lines 56-68): `StartHelpHandler`, `MenuCallbacksHandler`,
`AddExpenseStepsHandler`, then the read-only report handlers and the two
catch-alls.  `StartHelpHandler` greedily consumes `/start`/`/help` texts; the
report handlers and both catch-alls only send messages — none of them touches
the session or the ledger (no `set_state`/`reset_state`/`insert_expense`
call outside the two handlers modelled above, checked over `src/`). -/
def dispatchEvent (w : World) : Event → World
  | Event.text s =>
    if ("/start".data).isPrefixOf s.data ∨ ("/help".data).isPrefixOf s.data then
      let w1 := if ("/help".data).isPrefixOf s.data then sayHtml w OutMsg.helpText else w
      sayHtml w1 OutMsg.startMenu
    else if fsmCanHandle w (Event.text s) then (fsmHandleText w s).1
    else sayHtml w OutMsg.unknownTextMsg
  | Event.callback data =>
    if menuCanHandle data then
      let wc := menuHandle w data
      if wc.2 = some false then wc.1
      else sayHtml wc.1 OutMsg.reportOutput
    else if fsmCanHandle w (Event.callback data) then
      let wc := fsmHandleCallback w data
      if wc.2 = some false then wc.1
      else sayHtml wc.1 OutMsg.unknownCallbackMsg
    else sayHtml w OutMsg.unknownCallbackMsg

/-- The world before any event: no session row (equivalently `IDLE, {}`),
empty ledger. -/
def initialWorld : World := {}

/-- Run a list of inbound events through the handler chain in order. -/
def runEvents (w : World) : List Event → World
  | [] => w
  | e :: es => runEvents (dispatchEvent w e) es

/-- The ledger invariant: every expense row present has a strictly positive
amount. -/
def LedgerPos (w : World) : Prop :=
  ∀ e ∈ w.expenses, pyIsPos e.amount = true

/-- The inductive invariant of the dialog: each mid-dialog state owns the
payload fields collected so far, and a pending `expect_text` key is tied to
its state. -/
def SessionInv (w : World) : Prop :=
  (w.fsm = FsmState.ASK_STORE → (w.payload.category).isSome)
  ∧ (w.fsm = FsmState.ASK_AMOUNT →
      (w.payload.category).isSome ∧ (w.payload.store).isSome)
  ∧ (w.fsm = FsmState.ASK_NOTE →
      (w.payload.category).isSome ∧ (w.payload.store).isSome ∧ (w.payload.amount).isSome)
  ∧ (w.fsm = FsmState.CONFIRM →
      (w.payload.category).isSome ∧ (w.payload.store).isSome ∧ (w.payload.amount).isSome)
  ∧ (w.payload.expect_text = some "STORE" → w.fsm = FsmState.ASK_STORE)
  ∧ (w.payload.expect_text = some "AMOUNT" → w.fsm = FsmState.ASK_AMOUNT)
  ∧ (w.payload.expect_text = some "NOTE" → w.fsm = FsmState.ASK_NOTE)

/-- A handler as the `Dispatcher` sees it (`bot/handler.py` declares the
`can_handle`/`handle` capability pair; `handle`'s Python return value is a
`bool` or `None`, modelled as `Option Bool` with `none` for `None`). -/
structure AHandler (U : Type) where
  canHandle : U → Bool
  run : U → Option Bool

/-- `Dispatcher.dispatch` (`src/bot/dispatcher.py` lines 30-51), traced as the
list of handlers actually invoked, in order: skip a handler whose `can_handle`
is false, invoke `handle` otherwise, and break exactly when the invoked
handler returned `False` (`if consumed is False: break`). -/
def dispatchInvoked {U : Type} (hs : List (AHandler U)) (u : U) : List (AHandler U) :=
  match hs with
  | [] => []
  | h :: rest =>
    if h.canHandle u then
      if h.run u = some false then [h] else h :: dispatchInvoked rest u
    else dispatchInvoked rest u

/-- Written from the claim: take the handlers whose `can_handle` is true, in
registration order, up to and including the first that returns `False`. -/
def chainUpToFalse {U : Type} (u : U) : List (AHandler U) → List (AHandler U)
  | [] => []
  | h :: rest => if h.run u = some false then [h] else h :: chainUpToFalse u rest

/-- Written from the claim: the handlers the dispatcher should invoke. -/
def claimInvoked {U : Type} (hs : List (AHandler U)) (u : U) : List (AHandler U) :=
  chainUpToFalse u (hs.filter (fun h => h.canHandle u))

/-- One update as seen by the long-polling loop (`src/bot/long_polling.py`):
its optional `update_id` and whether `dispatcher.dispatch` raised (the raise
is caught and logged by the per-update `try`/`except`). -/
structure PolledUpdate where
  update_id : Option Int
  dispatchRaises : Bool
deriving DecidableEq, Repr

/-- The per-batch loop body (lines 36-48): dispatch each update (an exception
is swallowed), then — outside the `try` — set the cursor to `update_id + 1`
whenever the update carries an id.  The cursor computation never reads the
dispatch outcome. -/
def processUpdates (cursor : Option Int) : List PolledUpdate → Option Int
  | [] => cursor
  | u :: rest =>
    let cursor1 := match u.update_id with
      | some i => some (i + 1)
      | none => cursor
    processUpdates cursor1 rest

/-- The result of one `getUpdates` call: a raised exception (caught, `continue`
with the cursor unchanged) or a fetched batch. -/
inductive FetchResult where
  | fetchFailed
  | fetched (us : List PolledUpdate)
deriving DecidableEq, Repr

/-- One cycle of `start_long_polling` (lines 23-48): the cursor passed to the
next `getUpdates` call. -/
def pollCycle (cursor : Option Int) : FetchResult → Option Int
  | FetchResult.fetchFailed => cursor
  | FetchResult.fetched us => processUpdates cursor us

/-- The opening brace character, written via its code point. -/
def lbraceChar : Char := Char.ofNat 123

/-- The closing brace character, written via its code point. -/
def rbraceChar : Char := Char.ofNat 125

/-- A Python float stored in a JSON payload: a decimal number `m / 10^(k+1)`
(every IEEE double has a finite decimal expansion, and `repr` — hence
`json.dumps` — always prints at least one fractional digit when it does not
use an exponent; an exponent form denotes the same decimal), or one of the
three non-finite floats, which Python's `json` writes as its non-standard
constants `NaN`, `Infinity` and `-Infinity`. -/
inductive JFloat where
  | dec (m : ℤ) (k : ℕ)
  | inf
  | neginf
  | nan

mutual

/-- JSON values as produced by Python `json.dumps` / consumed by `json.loads`
for the session payload (`src/bot/repo/state_repo.py`): `None`, bools, ints,
floats (`JFloat`), strings, lists and dicts; keys and strings as character
lists. -/
inductive Json where
  | jnull
  | jbool (b : Bool)
  | jint (n : ℤ)
  | jfloat (x : JFloat)
  | jstr (s : List Char)
  | jarr (xs : JsonItems)
  | jobj (fs : JsonMembers)

/-- A list of JSON array items. -/
inductive JsonItems where
  | nil
  | cons (x : Json) (xs : JsonItems)

/-- A list of JSON object members (key/value pairs, insertion ordered like a
Python dict). -/
inductive JsonMembers where
  | nil
  | cons (k : List Char) (v : Json) (fs : JsonMembers)

end

/-- The keys of an object member list, in order. -/
def memberKeys : JsonMembers → List (List Char)
  | JsonMembers.nil => []
  | JsonMembers.cons k _ fs => k :: memberKeys fs

/-- Decimal digit character for a value below ten. -/
def digitChar (d : ℕ) : Char := Char.ofNat (48 + d)

/-- Lower-case hexadecimal digit character for a value below sixteen. -/
def digitHex (n : ℕ) : Char := Char.ofNat (if n < 10 then 48 + n else 87 + n)

/-- Decimal digits of a natural number, most significant first, by structural
recursion on a fuel argument (so that it reduces inside the kernel). -/
def natDigitsFuel : ℕ → ℕ → List Char
  | 0, _ => []
  | fuel + 1, n =>
    if n < 10 then [digitChar n]
    else natDigitsFuel fuel (n / 10) ++ [digitChar (n % 10)]

/-- Decimal digits of a natural number (Python `str` of a non-negative int). -/
def natDigits (n : ℕ) : List Char := natDigitsFuel (n + 1) n

/-- Python `str` of an int: optional minus sign then decimal digits. -/
def intChars : ℤ → List Char
  | Int.ofNat n => natDigits n
  | Int.negSucc n => '-' :: natDigits (n + 1)

/-- Exactly `k` decimal digits of `n` (that is, of `n mod 10^k`), most
significant first, zero-padded on the left. -/
def decDigits : ℕ → ℕ → List Char
  | _, 0 => []
  | n, k + 1 => decDigits (n / 10) k ++ [digitChar (n % 10)]

/-- The float text `json.dumps` writes: sign, integer part, a dot and the
fractional digits (the model prints the exact decimal expansion, which for
the shortest-repr text the program writes is the same digit string), and the
`json` module's non-standard constants for the non-finite values. -/
def floatChars : JFloat → List Char
  | JFloat.nan => ['N', 'a', 'N']
  | JFloat.inf => ['I', 'n', 'f', 'i', 'n', 'i', 't', 'y']
  | JFloat.neginf => '-' :: ['I', 'n', 'f', 'i', 'n', 'i', 't', 'y']
  | JFloat.dec m k =>
    (if m < 0 then ['-'] else []) ++
      (natDigits (m.natAbs / 10 ^ (k + 1)) ++
        ('.' :: decDigits m.natAbs (k + 1)))

/-- One character as escaped by `json.dumps` with `ensure_ascii=False`: only
`"` , `\` and control characters are escaped (the short forms for newline,
carriage return, tab, backspace, form feed; `\u00XX` otherwise). -/
def escChar (c : Char) : List Char :=
  if c = '"' then ['\\', '"']
  else if c = '\\' then ['\\', '\\']
  else if c = '\n' then ['\\', 'n']
  else if c = '\r' then ['\\', 'r']
  else if c = '\t' then ['\\', 't']
  else if c = Char.ofNat 8 then ['\\', 'b']
  else if c = Char.ofNat 12 then ['\\', 'f']
  else if c.toNat < 32 then
    ['\\', 'u', '0', '0', digitHex (c.toNat / 16), digitHex (c.toNat % 16)]
  else [c]

/-- A string body as escaped by `json.dumps`. -/
def escapeChars : List Char → List Char
  | [] => []
  | c :: cs => escChar c ++ escapeChars cs

mutual

/-- `json.dumps(..., ensure_ascii=False)` with the default separators
`', '` and `': '`, as called by `set_state`. -/
def dumpsVal : Json → List Char
  | Json.jnull => ['n', 'u', 'l', 'l']
  | Json.jbool true => ['t', 'r', 'u', 'e']
  | Json.jbool false => ['f', 'a', 'l', 's', 'e']
  | Json.jint n => intChars n
  | Json.jfloat x => floatChars x
  | Json.jstr s => '"' :: (escapeChars s ++ ['"'])
  | Json.jarr xs => '[' :: (dumpsItems xs ++ [']'])
  | Json.jobj fs => lbraceChar :: (dumpsMembers fs ++ [rbraceChar])

/-- Array items joined by `', '`. -/
def dumpsItems : JsonItems → List Char
  | JsonItems.nil => []
  | JsonItems.cons x JsonItems.nil => dumpsVal x
  | JsonItems.cons x (JsonItems.cons y ys) =>
    dumpsVal x ++ (',' :: ' ' :: dumpsItems (JsonItems.cons y ys))

/-- Object members joined by `', '`; each member is `"key": value`. -/
def dumpsMembers : JsonMembers → List Char
  | JsonMembers.nil => []
  | JsonMembers.cons k v JsonMembers.nil =>
    '"' :: (escapeChars k ++ ('"' :: ':' :: ' ' :: dumpsVal v))
  | JsonMembers.cons k v (JsonMembers.cons k2 v2 fs) =>
    ('"' :: (escapeChars k ++ ('"' :: ':' :: ' ' :: dumpsVal v)))
      ++ (',' :: ' ' :: dumpsMembers (JsonMembers.cons k2 v2 fs))

end

/-- JSON whitespace skipped between tokens. -/
def skipWs (cs : List Char) : List Char :=
  cs.dropWhile (fun c => c = ' ' || c = '\t' || c = '\n' || c = '\r')

/-- Value of one hexadecimal digit character, upper or lower case. -/
def hexVal (c : Char) : Option ℕ :=
  if '0' ≤ c ∧ c ≤ '9' then some (c.toNat - 48)
  else if 'a' ≤ c ∧ c ≤ 'f' then some (c.toNat - 87)
  else if 'A' ≤ c ∧ c ≤ 'F' then some (c.toNat - 55)
  else none

mutual

/-- Body of a JSON string after the opening quote: literal characters, the
escape short forms, and `\uXXXX`; unescaped control characters are rejected
(strict `json.loads`).  Returns the decoded body and the input after the
closing quote. -/
def parseStringBody : List Char → Option (List Char × List Char)
  | [] => none
  | c :: rest =>
    if c = '"' then some ([], rest)
    else if c = '\\' then parseEscape rest
    else if c.toNat < 32 then none
    else (parseStringBody rest).map (fun p => (c :: p.1, p.2))

/-- The continuation after a backslash inside a JSON string. -/
def parseEscape : List Char → Option (List Char × List Char)
  | [] => none
  | e :: rest2 =>
    if e = 'u' then
      match rest2 with
      | h1 :: h2 :: h3 :: h4 :: rest3 =>
        match hexVal h1, hexVal h2, hexVal h3, hexVal h4 with
        | some a, some b, some c2, some d =>
          (parseStringBody rest3).map
            (fun p => (Char.ofNat (((a * 16 + b) * 16 + c2) * 16 + d) :: p.1, p.2))
        | _, _, _, _ => none
      | _ => none
    else if e = '"' ∨ e = '\\' ∨ e = '/' then
      (parseStringBody rest2).map (fun p => (e :: p.1, p.2))
    else if e = 'b' then (parseStringBody rest2).map (fun p => (Char.ofNat 8 :: p.1, p.2))
    else if e = 'f' then (parseStringBody rest2).map (fun p => (Char.ofNat 12 :: p.1, p.2))
    else if e = 'n' then (parseStringBody rest2).map (fun p => ('\n' :: p.1, p.2))
    else if e = 'r' then (parseStringBody rest2).map (fun p => ('\r' :: p.1, p.2))
    else if e = 't' then (parseStringBody rest2).map (fun p => ('\t' :: p.1, p.2))
    else none

end

/-- The exponent continuation of a JSON number: optional sign then digits;
the value `±mant · 10^(e - frac)` is a Python float, written here over a
power of ten with at least one fractional digit. -/
def parseExp (neg : Bool) (mant : ℕ) (frac : ℕ) (cs : List Char) :
    Option (Json × List Char) :=
  let eneg : Bool := cs.head? = some '-'
  let cs1 := if cs.head? = some '+' ∨ cs.head? = some '-' then cs.tail else cs
  let es := cs1.takeWhile Char.isDigit
  let rest := cs1.dropWhile Char.isDigit
  if es = [] then none
  else
    let e : ℤ := if eneg then -(digitsToNat es : ℤ) else (digitsToNat es : ℤ)
    let sm : ℤ := if neg then -(mant : ℤ) else (mant : ℤ)
    let v : JFloat :=
      if e < (frac : ℤ) then JFloat.dec sm (((frac : ℤ) - e).toNat - 1)
      else JFloat.dec (sm * 10 ^ (e - (frac : ℤ)).toNat * 10) 0
    some (Json.jfloat v, rest)

/-- A JSON number (strict `json` grammar): optional minus, integer digits
with no superfluous leading zero, optional fraction, optional exponent.  An
integer literal decodes to a Python `int`, anything else to a `float`. -/
def parseNum (cs : List Char) : Option (Json × List Char) :=
  let neg : Bool := cs.head? = some '-'
  let cs1 := if neg then cs.tail else cs
  let ds := cs1.takeWhile Char.isDigit
  let rest1 := cs1.dropWhile Char.isDigit
  if ds = [] then none
  else if 1 < ds.length ∧ ds.head? = some '0' then none
  else if rest1.head? = some '.' then
    let fs := rest1.tail.takeWhile Char.isDigit
    let rest2 := rest1.tail.dropWhile Char.isDigit
    if fs = [] then none
    else if rest2.head? = some 'e' ∨ rest2.head? = some 'E' then
      parseExp neg (digitsToNat ds * 10 ^ fs.length + digitsToNat fs) fs.length rest2.tail
    else
      some (Json.jfloat (JFloat.dec
        (if neg then -((digitsToNat ds * 10 ^ fs.length + digitsToNat fs : ℕ) : ℤ)
         else ((digitsToNat ds * 10 ^ fs.length + digitsToNat fs : ℕ) : ℤ))
        (fs.length - 1)), rest2)
  else if rest1.head? = some 'e' ∨ rest1.head? = some 'E' then
    parseExp neg (digitsToNat ds) 0 rest1.tail
  else
    some (Json.jint (if neg then -(digitsToNat ds : ℤ) else (digitsToNat ds : ℤ)), rest1)

/-- Match an exact literal continuation, returning the remainder. -/
def stripLit : List Char → List Char → Option (List Char)
  | [], cs => some cs
  | _ :: _, [] => none
  | p :: ps, c :: cs => if c = p then stripLit ps cs else none

mutual

/-- Recursive-descent JSON value parser with structural fuel, dispatching on
the first non-whitespace character like the strict `json` scanner. -/
def parseVal : ℕ → List Char → Option (Json × List Char)
  | 0, _ => none
  | fuel + 1, cs0 =>
    match skipWs cs0 with
    | [] => none
    | c :: rest =>
      if c = 'n' then
        match stripLit ['u', 'l', 'l'] rest with
        | some r => some (Json.jnull, r)
        | none => none
      else if c = 't' then
        match stripLit ['r', 'u', 'e'] rest with
        | some r => some (Json.jbool true, r)
        | none => none
      else if c = 'f' then
        match stripLit ['a', 'l', 's', 'e'] rest with
        | some r => some (Json.jbool false, r)
        | none => none
      else if c = '"' then
        match parseStringBody rest with
        | some p => some (Json.jstr p.1, p.2)
        | none => none
      else if c = '[' then
        match skipWs rest with
        | [] => none
        | c2 :: r2 =>
          if c2 = ']' then some (Json.jarr JsonItems.nil, r2)
          else
            match parseItems fuel (c2 :: r2) with
            | some p => some (Json.jarr p.1, p.2)
            | none => none
      else if c = lbraceChar then
        match skipWs rest with
        | [] => none
        | c2 :: r2 =>
          if c2 = rbraceChar then some (Json.jobj JsonMembers.nil, r2)
          else
            match parseMembers fuel (c2 :: r2) with
            | some p => some (Json.jobj p.1, p.2)
            | none => none
      else if c = 'N' then
        match stripLit ['a', 'N'] rest with
        | some r => some (Json.jfloat JFloat.nan, r)
        | none => none
      else if c = 'I' then
        match stripLit ['n', 'f', 'i', 'n', 'i', 't', 'y'] rest with
        | some r => some (Json.jfloat JFloat.inf, r)
        | none => none
      else if c = '-' then
        match stripLit ['I', 'n', 'f', 'i', 'n', 'i', 't', 'y'] rest with
        | some r => some (Json.jfloat JFloat.neginf, r)
        | none => parseNum (c :: rest)
      else parseNum (c :: rest)

/-- One or more comma-separated items, consuming the closing `]`. -/
def parseItems : ℕ → List Char → Option (JsonItems × List Char)
  | 0, _ => none
  | fuel + 1, cs =>
    match parseVal fuel cs with
    | none => none
    | some (v, r) =>
      match skipWs r with
      | [] => none
      | c :: r2 =>
        if c = ']' then some (JsonItems.cons v JsonItems.nil, r2)
        else if c = ',' then
          match parseItems fuel r2 with
          | some (vs, r3) => some (JsonItems.cons v vs, r3)
          | none => none
        else none

/-- One or more comma-separated `"key": value` members, consuming the
closing brace. -/
def parseMembers : ℕ → List Char → Option (JsonMembers × List Char)
  | 0, _ => none
  | fuel + 1, cs =>
    match skipWs cs with
    | [] => none
    | c0 :: r0 =>
      if c0 = '"' then
        match parseStringBody r0 with
        | none => none
        | some (k, r1) =>
          match skipWs r1 with
          | [] => none
          | c1 :: r2 =>
            if c1 = ':' then
              match parseVal fuel r2 with
              | none => none
              | some (v, r3) =>
                match skipWs r3 with
                | [] => none
                | c :: r4 =>
                  if c = rbraceChar then some (JsonMembers.cons k v JsonMembers.nil, r4)
                  else if c = ',' then
                    match parseMembers fuel r4 with
                    | some (fs, r5) => some (JsonMembers.cons k v fs, r5)
                    | none => none
                  else none
            else none
      else none

end

/-- `json.loads` on a complete document: parse one value, allow only trailing
whitespace. -/
def loads (cs : List Char) : Option Json :=
  match parseVal (cs.length + 1) cs with
  | some (v, rest) => if skipWs rest = [] then some v else none
  | none => none

/-- The `user_state` table: a row `(state, payload_text)` per user id. -/
def StateDb : Type := Int → Option (String × String)

/-- `set_state` (`src/bot/repo/state_repo.py` lines 32-57): upsert the row
with the state string and `json.dumps(payload, ensure_ascii=False)`. -/
def set_state (db : StateDb) (user : Int) (state : String)
    (payload : JsonMembers) : StateDb :=
  fun u => if u = user then some (state, String.mk (dumpsVal (Json.jobj payload))) else db u

/-- `get_state` (lines 5-29): missing row defaults to `("IDLE", {})`; an empty
or unparsable payload text degrades to `{}` (the `try`/`except`). -/
def get_state (db : StateDb) (user : Int) : String × Json :=
  match db user with
  | none => ("IDLE", Json.jobj JsonMembers.nil)
  | some (st, pl) =>
    (st,
      if pl = "" then Json.jobj JsonMembers.nil
      else
        match loads pl.data with
        | some v => v
        | none => Json.jobj JsonMembers.nil)

/-- Python `==` on two float values: exact numeric comparison; `NaN`
compares unequal to everything, including itself (IEEE-754). -/
def pyNumEq : JFloat → JFloat → Bool
  | JFloat.dec m1 k1, JFloat.dec m2 k2 => m1 * 10 ^ (k2 + 1) == m2 * 10 ^ (k1 + 1)
  | JFloat.inf, JFloat.inf => true
  | JFloat.neginf, JFloat.neginf => true
  | _, _ => false

/-- The numeric reading Python `==` gives a JSON scalar: `bool` is an `int`
subclass (`True == 1`), and ints and floats compare exactly. -/
def asNum : Json → Option JFloat
  | Json.jbool b => some (JFloat.dec (if b then 10 else 0) 0)
  | Json.jint n => some (JFloat.dec (n * 10) 0)
  | Json.jfloat x => some x
  | _ => none

/-- Member lookup by key (a dict read during `dict.__eq__`). -/
def lookupMember (key : List Char) : JsonMembers → Option Json
  | JsonMembers.nil => none
  | JsonMembers.cons k v fs => if k = key then some v else lookupMember key fs

/-- Number of members (`len` of the dict). -/
def membersLength : JsonMembers → ℕ
  | JsonMembers.nil => 0
  | JsonMembers.cons _ _ fs => membersLength fs + 1

mutual

/-- Python `==` on two decoded JSON values: `None`, strings and lists compare
structurally, dicts by size and per-key lookup (insertion order is ignored),
and numbers by exact value with `NaN` unequal even to itself. -/
def pyEqJson : Json → Json → Bool
  | Json.jnull, Json.jnull => true
  | Json.jstr s, Json.jstr t => s == t
  | Json.jarr xs, Json.jarr ys => pyEqItems xs ys
  | Json.jobj fs, Json.jobj gs =>
    membersLength fs == membersLength gs && pyEqMembersIn fs gs
  | a, b =>
    match asNum a, asNum b with
    | some x, some y => pyNumEq x y
    | _, _ => false

/-- Pointwise Python `==` on two lists. -/
def pyEqItems : JsonItems → JsonItems → Bool
  | JsonItems.nil, JsonItems.nil => true
  | JsonItems.cons x xs, JsonItems.cons y ys => pyEqJson x y && pyEqItems xs ys
  | _, _ => false

/-- Every member of the first dict is present in the second with a
Python-`==` value. -/
def pyEqMembersIn : JsonMembers → JsonMembers → Bool
  | JsonMembers.nil, _ => true
  | JsonMembers.cons k v fs, gs =>
    (match lookupMember k gs with
     | some w => pyEqJson v w
     | none => false) && pyEqMembersIn fs gs

end

/-- Pairwise distinct keys (a Python dict cannot carry duplicates). -/
def distinctKeys : List (List Char) → Bool
  | [] => true
  | k :: ks => !ks.contains k && distinctKeys ks

mutual

/-- The value is the decoding of an actual Python payload dict: every nested
object has pairwise distinct keys. -/
def keysOK : Json → Bool
  | Json.jarr xs => keysOKItems xs
  | Json.jobj fs => distinctKeys (memberKeys fs) && keysOKMembers fs
  | _ => true

/-- `keysOK` over a list of items. -/
def keysOKItems : JsonItems → Bool
  | JsonItems.nil => true
  | JsonItems.cons x xs => keysOK x && keysOKItems xs

/-- `keysOK` over the member values. -/
def keysOKMembers : JsonMembers → Bool
  | JsonMembers.nil => true
  | JsonMembers.cons _ v fs => keysOK v && keysOKMembers fs

end

mutual

/-- No `NaN` float anywhere in the value. -/
def nanFree : Json → Bool
  | Json.jfloat JFloat.nan => false
  | Json.jarr xs => nanFreeItems xs
  | Json.jobj fs => nanFreeMembers fs
  | _ => true

/-- `nanFree` over a list of items. -/
def nanFreeItems : JsonItems → Bool
  | JsonItems.nil => true
  | JsonItems.cons x xs => nanFree x && nanFreeItems xs

/-- `nanFree` over the member values. -/
def nanFreeMembers : JsonMembers → Bool
  | JsonMembers.nil => true
  | JsonMembers.cons _ v fs => nanFree v && nanFreeMembers fs

end

/-- A `(key, value)` pair occurs in the member list. -/
def hasMember : JsonMembers → List Char → Json → Prop
  | JsonMembers.nil, _, _ => False
  | JsonMembers.cons k v fs, k2, v2 => (k = k2 ∧ v = v2) ∨ hasMember fs k2 v2

/-- The remainder after a number must not extend the numeric literal (true of
every continuation the printer emits after a value). -/
def numDelimOK (rest : List Char) : Prop :=
  ∀ c, rest.head? = some c → c.isDigit = false ∧ ¬c = '.' ∧ ¬c = 'e' ∧ ¬c = 'E'

/-- A concrete session payload used to witness the session-store round trip. -/
def wFields : JsonMembers :=
  JsonMembers.cons ("category".data) (Json.jstr ("Food".data))
    (JsonMembers.cons ("store".data) (Json.jstr ("Ozon".data))
      (JsonMembers.cons ("amount".data) (Json.jfloat (JFloat.dec 1255 0))
        (JsonMembers.cons ("note".data) (Json.jstr []) JsonMembers.nil)))

/-- A payload carrying the NaN amount the `parse_amount` hole lets through,
used by the C10 counterexample. -/
def nanFields : JsonMembers :=
  JsonMembers.cons ("category".data) (Json.jstr ("Food".data))
    (JsonMembers.cons ("amount".data) (Json.jfloat JFloat.nan) JsonMembers.nil)

/-- An empty state table used to witness the round trip. -/
def wDb : StateDb := fun _ => none

/-- The event sequence of a complete add-expense dialog whose typed amount is
the text `nan`. -/
def nanDialog : List Event :=
  [Event.callback MENU_ADD, Event.callback "CATEGORY::Food",
   Event.callback "STORE::Ozon", Event.text "nan",
   Event.callback "NOTE::SKIP", Event.callback "CONFIRM::SAVE"]


/-- A concrete session sitting at the confirm step with every field filled,
used by witnesses. -/
def confirmReadyWorld : World :=
  { fsm := FsmState.CONFIRM,
    payload := { category := some "Food", store := some "Ozon",
                 amount := some (PyFloat.finite 5), note := some "x" } }

/-- A concrete session at the confirm step with the amount missing, used by
witnesses. -/
def confirmMissingWorld : World :=
  { fsm := FsmState.CONFIRM,
    payload := { category := some "Food", store := some "Ozon" } }

/-- The event sequence of a complete dialog up to the confirm step, used by
witnesses. -/
def confirmDialog : List Event :=
  [Event.callback MENU_ADD, Event.callback "CATEGORY::Food",
   Event.callback "STORE::Ozon", Event.text "125,50",
   Event.callback "NOTE::SKIP"]

/-- The same dialog carried through the save, used by witnesses. -/
def saveDialog : List Event :=
  confirmDialog ++ [Event.callback "CONFIRM::SAVE"]

/-- C1: from any of the five in-dialog states, a `CANCEL` callback leaves the
stored session at `IDLE` with an empty payload, and in state `CONFIRM` a
`CONFIRM::CANCEL` callback does the same, discarding all in-progress payload
fields. -/
theorem cancel_resets_session (w : World)
    (h : w.fsm = FsmState.ASK_CATEGORY ∨ w.fsm = FsmState.ASK_STORE ∨
      w.fsm = FsmState.ASK_AMOUNT ∨ w.fsm = FsmState.ASK_NOTE ∨
      w.fsm = FsmState.CONFIRM) :
    ((fsmHandleCallback w "CANCEL").1.fsm = FsmState.IDLE ∧
      (fsmHandleCallback w "CANCEL").1.payload = {}) ∧
    (w.fsm = FsmState.CONFIRM →
      (fsmHandleCallback w "CONFIRM::CANCEL").1.fsm = FsmState.IDLE ∧
      (fsmHandleCallback w "CONFIRM::CANCEL").1.payload = {}) := by
  refine ⟨⟨rfl, rfl⟩, fun hc => ?_⟩
  have hred : fsmHandleCallback w "CONFIRM::CANCEL" = cbConfirm w "CANCEL" := rfl
  rw [hred]
  unfold cbConfirm
  rw [if_neg (by rw [hc]; decide), if_neg (by decide), if_pos rfl]
  exact ⟨rfl, rfl⟩

/-- Witness for C1 at a concrete mid-dialog session. -/
theorem cancel_resets_session_witness :
    (confirmReadyWorld.fsm = FsmState.ASK_CATEGORY ∨
      confirmReadyWorld.fsm = FsmState.ASK_STORE ∨
      confirmReadyWorld.fsm = FsmState.ASK_AMOUNT ∨
      confirmReadyWorld.fsm = FsmState.ASK_NOTE ∨
      confirmReadyWorld.fsm = FsmState.CONFIRM) ∧
    (((fsmHandleCallback confirmReadyWorld "CANCEL").1.fsm = FsmState.IDLE ∧
      (fsmHandleCallback confirmReadyWorld "CANCEL").1.payload = {}) ∧
    (confirmReadyWorld.fsm = FsmState.CONFIRM →
      (fsmHandleCallback confirmReadyWorld "CONFIRM::CANCEL").1.fsm = FsmState.IDLE ∧
      (fsmHandleCallback confirmReadyWorld "CONFIRM::CANCEL").1.payload = {})) :=
  ⟨by decide, cancel_resets_session confirmReadyWorld (by decide)⟩

/-- C2 (failing input): `parse_amount "nan"` succeeds — Python `float('nan')`
parses and `nan <= 0` is `False` — yet the returned value is not strictly
positive, contradicting the claim and the function's own docstring ("Parsed
positive float if valid, otherwise None"). -/
theorem parse_amount_nan_not_positive :
    parse_amount "nan" = some PyFloat.nan ∧ pyIsPos PyFloat.nan = false := by
  decide

/-- A DB-acceptable amount is strictly positive. -/
theorem dbAmountOK_pos (a : PyFloat) (h : dbAmountOK a = true) : pyIsPos a = true := by
  cases a <;> simp_all [dbAmountOK, pyIsPos]

/-- A successful INSERT preserves ledger positivity: the appended row's
amount passed the schema constraint. -/
theorem insert_expense_ledger (w : World) (c s : String) (a : PyFloat) (n : String)
    (w1 : World) (hI : insert_expense w c s a n = some w1) (h : LedgerPos w) :
    LedgerPos w1 := by
  simp only [insert_expense] at hI
  split_ifs at hI with hOK
  injection hI with hI2
  subst hI2
  intro e he
  rcases List.mem_append.mp he with hin | hin
  · exact h e hin
  · rw [List.mem_singleton.mp hin]
    exact dbAmountOK_pos a hOK

/-- Every callback transition preserves ledger positivity: the only append
is the save, and it is guarded by the schema constraint. -/
theorem ledgerPos_fsmCallback (w : World) (data : String) (h : LedgerPos w) :
    LedgerPos (fsmHandleCallback w data).1 := by
  rcases hp : parse_callback data with ⟨k, v⟩
  simp only [fsmHandleCallback, hp]
  split_ifs with k1 k2 k3 k4 k5
  · exact h
  · simp only [cbCategory]
    split_ifs <;> exact h
  · simp only [cbStore]
    split_ifs <;> exact h
  · simp only [cbNote]
    split_ifs <;> exact h
  · simp only [cbConfirm]
    split_ifs with s1 s2 s3 s4
    · exact h
    · exact h
    · rcases hI : insert_expense w ((w.payload.category).getD "")
          ((w.payload.store).getD "") ((w.payload.amount).getD PyFloat.nan)
          ((w.payload.note).getD "") with - | w1
      · exact h
      · exact insert_expense_ledger w ((w.payload.category).getD "")
          ((w.payload.store).getD "") ((w.payload.amount).getD PyFloat.nan)
          ((w.payload.note).getD "") w1 hI h
    · exact h
    · exact h
  · exact h

/-- One dispatched event preserves ledger positivity. -/
theorem ledgerPos_dispatchEvent (w : World) (e : Event) (h : LedgerPos w) :
    LedgerPos (dispatchEvent w e) := by
  cases e with
  | text s =>
    simp only [dispatchEvent]
    split_ifs with hp hh hc
    · exact h
    · exact h
    · simp only [fsmHandleText]
      split_ifs with e1 e2 e3 e4
      · simp only [textNewCategory]
        split_ifs <;> exact h
      · simp only [textNewStore]
        split_ifs <;> exact h
      · simp only [textAmount]
        rcases hq : parse_amount (pyStrip s) with - | a <;> simp only [hq] <;> exact h
      · exact h
      · exact h
    · exact h
  | callback data =>
    have hmenu : LedgerPos (menuHandle w data).1 := by
      simp only [menuHandle]
      split_ifs <;> exact h
    have hfsm := ledgerPos_fsmCallback w data h
    simp only [dispatchEvent]
    split_ifs
    · exact hmenu
    · exact hmenu
    · exact hfsm
    · exact hfsm
    · exact h

/-- Any run from the empty initial world keeps the ledger invariant. -/
theorem ledgerPos_runEvents (es : List Event) :
    LedgerPos (runEvents initialWorld es) := by
  suffices hgen : ∀ w, LedgerPos w → LedgerPos (runEvents w es) by
    refine hgen initialWorld ?_
    intro e he
    simp [initialWorld] at he
  induction es with
  | nil => exact fun w h => h
  | cons e rest ih => exact fun w h => ih (dispatchEvent w e) (ledgerPos_dispatchEvent w e h)

/-- C3: the ledger invariant — after any event sequence from the initial
`IDLE` session, every expense row the FSM ever inserted has a strictly
positive amount.  The one save that reaches the INSERT with a non-positive
amount (NaN, through the `parse_amount` hole of C2) is stopped by the schema
constraint `amount REAL NOT NULL CHECK (amount > 0)`: the INSERT raises
`IntegrityError` and writes nothing. -/
theorem ledger_amount_positive (es : List Event) :
    ∀ e ∈ (runEvents initialWorld es).expenses, pyIsPos e.amount = true :=
  ledgerPos_runEvents es

/-- Witness for C3 on the row saved by a concrete complete dialog. -/
theorem ledger_amount_positive_witness :
    (⟨"Food", "Ozon", PyFloat.finite (mkRat 12550 100), ""⟩ : Expense) ∈
      (runEvents initialWorld saveDialog).expenses ∧
    pyIsPos (PyFloat.finite (mkRat 12550 100)) = true :=
  ⟨by decide,
    ledger_amount_positive saveDialog
      ⟨"Food", "Ozon", PyFloat.finite (mkRat 12550 100), ""⟩ (by decide)⟩

/-- The NaN dialog's save is stopped by the schema: the `IntegrityError`
leaves the ledger empty and the session still at the confirm step. -/
theorem nan_dialog_save_aborts :
    (runEvents initialWorld nanDialog).expenses = [] ∧
    (runEvents initialWorld nanDialog).fsm = FsmState.CONFIRM := by
  decide

/-- C6: a `CONFIRM::SAVE` handled in state `CONFIRM` with a required payload
field missing inserts nothing, resets the session to `IDLE` with an empty
payload, sends the data-loss error message, and consumes the event. -/
theorem confirm_save_missing_field (w : World)
    (hs : w.fsm = FsmState.CONFIRM)
    (hm : w.payload.category = none ∨ w.payload.store = none ∨
      w.payload.amount = none) :
    (fsmHandleCallback w "CONFIRM::SAVE").1.expenses = w.expenses ∧
    (fsmHandleCallback w "CONFIRM::SAVE").1.fsm = FsmState.IDLE ∧
    (fsmHandleCallback w "CONFIRM::SAVE").1.payload = {} ∧
    OutMsg.missingDataError ∈ (fsmHandleCallback w "CONFIRM::SAVE").1.sent ∧
    (fsmHandleCallback w "CONFIRM::SAVE").2 = some false := by
  have hred : fsmHandleCallback w "CONFIRM::SAVE" = cbConfirm w "SAVE" := rfl
  have hmiss : (w.payload.category).getD "" = "" ∨ (w.payload.store).getD "" = "" ∨
      w.payload.amount = none := by
    rcases hm with h | h | h
    · exact Or.inl (by rw [h]; rfl)
    · exact Or.inr (Or.inl (by rw [h]; rfl))
    · exact Or.inr (Or.inr h)
  rw [hred]
  unfold cbConfirm
  rw [if_neg (by rw [hs]; decide), if_pos rfl, if_pos hmiss]
  refine ⟨rfl, rfl, rfl, ?_, rfl⟩
  simp [sayHtml, sendMsg, resetSession, deleteLast]

/-- Witness for C6 with the amount missing at the confirm step. -/
theorem confirm_save_missing_field_witness :
    (confirmMissingWorld.fsm = FsmState.CONFIRM) ∧
    ((fsmHandleCallback confirmMissingWorld "CONFIRM::SAVE").1.expenses =
        confirmMissingWorld.expenses ∧
      (fsmHandleCallback confirmMissingWorld "CONFIRM::SAVE").1.fsm = FsmState.IDLE ∧
      (fsmHandleCallback confirmMissingWorld "CONFIRM::SAVE").1.payload = {} ∧
      OutMsg.missingDataError ∈
        (fsmHandleCallback confirmMissingWorld "CONFIRM::SAVE").1.sent ∧
      (fsmHandleCallback confirmMissingWorld "CONFIRM::SAVE").2 = some false) :=
  ⟨by decide, confirm_save_missing_field confirmMissingWorld (by decide) (by decide)⟩

/-- C9: a `CONFIRM::SAVE` in a complete `CONFIRM` session whose amount passes
the schema constraint (the saving case the claim conditions on) inserts
exactly one row and resets to `IDLE`; delivering the identical callback again
finds the advanced (now `IDLE`) state, changes nothing, inserts nothing, and
signals "not mine" (`consumed = true`). -/
theorem confirm_save_idempotent (w : World) (c s : String) (a : PyFloat)
    (hs : w.fsm = FsmState.CONFIRM)
    (hc : w.payload.category = some c) (hc2 : c ≠ "")
    (hst : w.payload.store = some s) (hst2 : s ≠ "")
    (ha : w.payload.amount = some a) (hok : dbAmountOK a = true) :
    (fsmHandleCallback w "CONFIRM::SAVE").1.expenses =
      w.expenses ++ [⟨pyStrip c, pyStrip s, a, pyStrip ((w.payload.note).getD "")⟩] ∧
    (fsmHandleCallback w "CONFIRM::SAVE").1.fsm = FsmState.IDLE ∧
    (fsmHandleCallback w "CONFIRM::SAVE").1.payload = {} ∧
    fsmHandleCallback (fsmHandleCallback w "CONFIRM::SAVE").1 "CONFIRM::SAVE" =
      ((fsmHandleCallback w "CONFIRM::SAVE").1, some true) := by
  have hred : fsmHandleCallback w "CONFIRM::SAVE" = cbConfirm w "SAVE" := rfl
  have hnm : ¬((w.payload.category).getD "" = "" ∨ (w.payload.store).getD "" = "" ∨
      w.payload.amount = none) := by
    rw [hc, hst, ha]
    simp [hc2, hst2]
  have hfirst : (fsmHandleCallback w "CONFIRM::SAVE").1 =
      { fsm := FsmState.IDLE, payload := {},
        expenses := w.expenses ++
          [⟨pyStrip c, pyStrip s, a, pyStrip ((w.payload.note).getD "")⟩],
        sent := w.sent ++ [OutMsg.savedNotice], nextMsgId := w.nextMsgId + 1 } := by
    rw [hred]
    unfold cbConfirm
    rw [if_neg (by rw [hs]; decide), if_pos rfl, if_neg hnm]
    simp [insert_expense, sendMsg, resetSession, deleteLast, hc, hst, ha, hok]
  refine ⟨by rw [hfirst], by rw [hfirst], by rw [hfirst], ?_⟩
  rw [hfirst]
  have hred2 : fsmHandleCallback
      { fsm := FsmState.IDLE, payload := {},
        expenses := w.expenses ++
          [⟨pyStrip c, pyStrip s, a, pyStrip ((w.payload.note).getD "")⟩],
        sent := w.sent ++ [OutMsg.savedNotice], nextMsgId := w.nextMsgId + 1 }
      "CONFIRM::SAVE" = cbConfirm
      { fsm := FsmState.IDLE, payload := {},
        expenses := w.expenses ++
          [⟨pyStrip c, pyStrip s, a, pyStrip ((w.payload.note).getD "")⟩],
        sent := w.sent ++ [OutMsg.savedNotice], nextMsgId := w.nextMsgId + 1 } "SAVE" := rfl
  rw [hred2]
  unfold cbConfirm
  simp

/-- Witness for C9 at a concrete complete session. -/
theorem confirm_save_idempotent_witness :
    (confirmReadyWorld.fsm = FsmState.CONFIRM ∧
      confirmReadyWorld.payload.category = some "Food" ∧
      confirmReadyWorld.payload.store = some "Ozon" ∧
      confirmReadyWorld.payload.amount = some (PyFloat.finite 5) ∧
      dbAmountOK (PyFloat.finite 5) = true) ∧
    ((fsmHandleCallback confirmReadyWorld "CONFIRM::SAVE").1.expenses =
      confirmReadyWorld.expenses ++
        [⟨pyStrip "Food", pyStrip "Ozon", PyFloat.finite 5,
          pyStrip ((confirmReadyWorld.payload.note).getD "")⟩] ∧
    (fsmHandleCallback confirmReadyWorld "CONFIRM::SAVE").1.fsm = FsmState.IDLE ∧
    (fsmHandleCallback confirmReadyWorld "CONFIRM::SAVE").1.payload = {} ∧
    fsmHandleCallback (fsmHandleCallback confirmReadyWorld "CONFIRM::SAVE").1
        "CONFIRM::SAVE" =
      ((fsmHandleCallback confirmReadyWorld "CONFIRM::SAVE").1, some true)) :=
  ⟨by decide,
    confirm_save_idempotent confirmReadyWorld "Food" "Ozon" (PyFloat.finite 5)
      (by decide) (by decide) (by decide) (by decide) (by decide) (by decide) (by decide)⟩

/-- C7: the dispatcher invokes exactly the `can_handle`-true handlers in
registration order up to and including the first invoked handler that returns
`False`; handlers whose `can_handle` is false are skipped without invocation,
and an invoked handler returning `True` lets the chain continue. -/
theorem dispatcher_chain_contract {U : Type} (hs : List (AHandler U)) (u : U) :
    dispatchInvoked hs u = claimInvoked hs u := by
  induction hs with
  | nil => rfl
  | cons h rest ih =>
    unfold dispatchInvoked claimInvoked
    by_cases hch : h.canHandle u
    · simp only [hch, List.filter_cons_of_pos]
      unfold chainUpToFalse
      by_cases hr : h.run u = some false
      · simp [hr]
      · simp only [hr, if_neg hr, if_false]
        rw [ih]
        rfl
    · simp only [hch, List.filter_cons_of_neg, Bool.false_eq_true, not_false_iff]
      rw [ih]
      rfl

/-- Once the cursor holds `some m`, processing more updates whose ids are all
at least `m - 1` keeps it defined and at least `m` (cursor never moves
backwards past already-observed ids). -/
theorem processUpdates_ge (us : List PolledUpdate) :
    ∀ m b : Int, b ≤ m →
      (∀ k ∈ us.filterMap PolledUpdate.update_id, b ≤ k) →
      ∃ c2, processUpdates (some m) us = some c2 ∧ b ≤ c2 := by
  induction us with
  | nil => exact fun m b hb _ => ⟨m, rfl, hb⟩
  | cons u rest ih =>
    intro m b hb hk
    cases hu : u.update_id with
    | none =>
      have hk2 : ∀ k ∈ rest.filterMap PolledUpdate.update_id, b ≤ k := by
        intro k hmem
        exact hk k (by simp [List.filterMap_cons, hu, hmem])
      simpa [processUpdates, hu] using ih m b hb hk2
    | some j =>
      have hbj : b ≤ j := hk j (by simp [List.filterMap_cons, hu])
      have hk2 : ∀ k ∈ rest.filterMap PolledUpdate.update_id, b ≤ k := by
        intro k hmem
        exact hk k (by simp [List.filterMap_cons, hu, hmem])
      have hstep : processUpdates (some m) (u :: rest) = processUpdates (some (j + 1)) rest := by
        simp [processUpdates, hu]
      rw [hstep]
      exact ih (j + 1) b (by omega) hk2

/-- C8: with the per-cycle batch ids strictly increasing, every observed
update id ends the cycle with the cursor strictly past it — independently of
which dispatches raised — and a failed fetch leaves the cursor unchanged. -/
theorem polling_cursor_contract (c : Option Int) (us : List PolledUpdate)
    (hmono : (us.filterMap PolledUpdate.update_id).Pairwise (· < ·)) :
    (∀ i ∈ us.filterMap PolledUpdate.update_id,
      ∃ c2, pollCycle c (FetchResult.fetched us) = some c2 ∧ i < c2) ∧
    pollCycle c FetchResult.fetchFailed = c := by
  refine ⟨?_, rfl⟩
  show ∀ i ∈ us.filterMap PolledUpdate.update_id,
    ∃ c2, processUpdates c us = some c2 ∧ i < c2
  induction us generalizing c with
  | nil => simp
  | cons u rest ih =>
    intro i hi
    cases hu : u.update_id with
    | none =>
      have hfm : (u :: rest).filterMap PolledUpdate.update_id =
          rest.filterMap PolledUpdate.update_id := by
        simp [List.filterMap_cons, hu]
      rw [hfm] at hmono hi
      have hstep : processUpdates c (u :: rest) = processUpdates c rest := by
        cases c <;> simp [processUpdates, hu]
      rw [hstep]
      exact ih c hmono i hi
    | some j =>
      have hfm : (u :: rest).filterMap PolledUpdate.update_id =
          j :: rest.filterMap PolledUpdate.update_id := by
        simp [List.filterMap_cons, hu]
      rw [hfm] at hmono hi
      have hmono1 : ∀ k ∈ rest.filterMap PolledUpdate.update_id, j < k :=
        (List.pairwise_cons.mp hmono).1
      have hmono2 : (rest.filterMap PolledUpdate.update_id).Pairwise (· < ·) :=
        (List.pairwise_cons.mp hmono).2
      have hstep : processUpdates c (u :: rest) = processUpdates (some (j + 1)) rest := by
        cases c <;> simp [processUpdates, hu]
      rw [hstep]
      rcases List.mem_cons.mp hi with hij | hir
      · subst hij
        obtain ⟨c2, hc2, hge⟩ := processUpdates_ge rest (i + 1) (i + 1) le_rfl
          (fun k hkm => by have := hmono1 k hkm; omega)
        exact ⟨c2, hc2, by omega⟩
      · exact ih (some (j + 1)) hmono2 i hir

/-- Witness for C8 on a concrete increasing batch with a raising dispatch. -/
theorem polling_cursor_contract_witness :
    (([⟨some 4, true⟩, ⟨some 7, false⟩] :
        List PolledUpdate).filterMap PolledUpdate.update_id).Pairwise (· < ·) ∧
    ((∀ i ∈ ([⟨some 4, true⟩, ⟨some 7, false⟩] :
        List PolledUpdate).filterMap PolledUpdate.update_id,
      ∃ c2, pollCycle (some 2) (FetchResult.fetched
        [⟨some 4, true⟩, ⟨some 7, false⟩]) = some c2 ∧ i < c2) ∧
    pollCycle (some 2) FetchResult.fetchFailed = some 2) :=
  ⟨by decide, polling_cursor_contract (some 2) [⟨some 4, true⟩, ⟨some 7, false⟩] (by decide)⟩

/-- A `payload.get("expect_text")` value equal to a non-empty string pins down
the stored option. -/
theorem getD_empty_eq_some {o : Option String} {t : String} (ht : ¬t = "")
    (h : o.getD "" = t) : o = some t := by
  cases o <;> simp_all

/-- `_send_and_remember` only touches `last_msg_id`, the sent list and the
message counter, so it preserves the session invariant. -/
theorem sessionInv_sendAndRemember (w : World) (m : OutMsg) (h : SessionInv w) :
    SessionInv (sendAndRemember w m) := h

/-- `_say_html` does not touch the session. -/
theorem sessionInv_sayHtml (w : World) (m : OutMsg) (h : SessionInv w) :
    SessionInv (sayHtml w m) := h

/-- Every callback transition of the add-expense handler preserves the
session invariant. -/
theorem sessionInv_fsmCallback (w : World) (data : String) (h : SessionInv w) :
    SessionInv (fsmHandleCallback w data).1 := by
  obtain ⟨h1, h2, h3, h4, h5, h6, h7⟩ := h
  rcases hp : parse_callback data with ⟨k, v⟩
  simp only [fsmHandleCallback, hp]
  split_ifs with k1 k2 k3 k4 k5
  · refine ⟨?_, ?_, ?_, ?_, ?_, ?_, ?_⟩ <;> intro hx <;>
      simp_all [cbCancel, sayHtml, sendMsg, resetSession, deleteLast]
  · simp only [cbCategory]
    split_ifs with s1 s2
    · exact ⟨h1, h2, h3, h4, h5, h6, h7⟩
    · refine ⟨?_, ?_, ?_, ?_, ?_, ?_, ?_⟩ <;> intro hx <;>
        simp_all [sendAndRemember, sendMsg, deleteLast]
    · refine ⟨?_, ?_, ?_, ?_, ?_, ?_, ?_⟩ <;> intro hx <;>
        simp_all [sendAndRemember, sendMsg, deleteLast]
  · simp only [cbStore]
    split_ifs with s1 s2
    · exact ⟨h1, h2, h3, h4, h5, h6, h7⟩
    · have hst : w.fsm = FsmState.ASK_STORE := not_not.mp s1
      have hcat := h1 hst
      refine ⟨?_, ?_, ?_, ?_, ?_, ?_, ?_⟩ <;> intro hx <;>
        simp_all [sendAndRemember, sendMsg, deleteLast]
    · have hst : w.fsm = FsmState.ASK_STORE := not_not.mp s1
      have hcat := h1 hst
      refine ⟨?_, ?_, ?_, ?_, ?_, ?_, ?_⟩ <;> intro hx <;>
        simp_all [sendAndRemember, sendMsg, deleteLast]
  · simp only [cbNote]
    split_ifs with s1 s2
    · exact ⟨h1, h2, h3, h4, h5, h6, h7⟩
    · have hfs : w.fsm = FsmState.ASK_NOTE := not_not.mp s1
      obtain ⟨hcat, hsto, ham⟩ := h3 hfs
      refine ⟨?_, ?_, ?_, ?_, ?_, ?_, ?_⟩ <;> intro hx <;>
        simp_all [sendAndRemember, sendMsg, deleteLast]
    · exact ⟨h1, h2, h3, h4, h5, h6, h7⟩
  · simp only [cbConfirm, insert_expense]
    split_ifs with s1 s2 s3 s4
    · exact ⟨h1, h2, h3, h4, h5, h6, h7⟩
    · refine ⟨?_, ?_, ?_, ?_, ?_, ?_, ?_⟩ <;> intro hx <;>
        simp_all [sayHtml, sendMsg, resetSession, deleteLast]
    · refine ⟨?_, ?_, ?_, ?_, ?_, ?_, ?_⟩ <;> intro hx <;>
        simp_all [sendMsg, resetSession, deleteLast]
    · exact ⟨h1, h2, h3, h4, h5, h6, h7⟩
    · refine ⟨?_, ?_, ?_, ?_, ?_, ?_, ?_⟩ <;> intro hx <;>
        simp_all [sayHtml, sendMsg, resetSession, deleteLast]
    · exact ⟨h1, h2, h3, h4, h5, h6, h7⟩
  · exact ⟨h1, h2, h3, h4, h5, h6, h7⟩

/-- One dispatched event preserves the session invariant. -/
theorem sessionInv_dispatchEvent (w : World) (e : Event) (h : SessionInv w) :
    SessionInv (dispatchEvent w e) := by
  obtain ⟨h1, h2, h3, h4, h5, h6, h7⟩ := h
  cases e with
  | text s =>
    simp only [dispatchEvent]
    split_ifs with hp hh hc
    · exact ⟨h1, h2, h3, h4, h5, h6, h7⟩
    · exact ⟨h1, h2, h3, h4, h5, h6, h7⟩
    · simp only [fsmHandleText]
      split_ifs with e1 e2 e3 e4
      · simp only [textNewCategory]
        split_ifs with ht
        · exact ⟨h1, h2, h3, h4, h5, h6, h7⟩
        · refine ⟨?_, ?_, ?_, ?_, ?_, ?_, ?_⟩ <;> intro hx <;>
            simp_all [sendAndRemember, sendMsg, deleteLast]
      · have hexp : w.payload.expect_text = some "STORE" :=
          getD_empty_eq_some (by decide) e2
        have hcat := h1 (h5 hexp)
        simp only [textNewStore]
        split_ifs with ht
        · exact ⟨h1, h2, h3, h4, h5, h6, h7⟩
        · refine ⟨?_, ?_, ?_, ?_, ?_, ?_, ?_⟩ <;> intro hx <;>
            simp_all [sendAndRemember, sendMsg, deleteLast]
      · have hexp : w.payload.expect_text = some "AMOUNT" :=
          getD_empty_eq_some (by decide) e3
        obtain ⟨hcat, hsto⟩ := h2 (h6 hexp)
        simp only [textAmount]
        rcases hq : parse_amount (pyStrip s) with _ | a <;> simp only [hq]
        · exact ⟨h1, h2, h3, h4, h5, h6, h7⟩
        · refine ⟨?_, ?_, ?_, ?_, ?_, ?_, ?_⟩ <;> intro hx <;>
            simp_all [sendAndRemember, sendMsg, deleteLast]
      · have hexp : w.payload.expect_text = some "NOTE" :=
          getD_empty_eq_some (by decide) e4
        obtain ⟨hcat, hsto, ham⟩ := h3 (h7 hexp)
        simp only [textNote]
        refine ⟨?_, ?_, ?_, ?_, ?_, ?_, ?_⟩ <;> intro hx <;>
          simp_all [sendAndRemember, sendMsg, deleteLast]
      · exact ⟨h1, h2, h3, h4, h5, h6, h7⟩
    · exact ⟨h1, h2, h3, h4, h5, h6, h7⟩
  | callback data =>
    have hmenu : SessionInv (menuHandle w data).1 := by
      simp only [menuHandle]
      split_ifs with ha hb
      · refine ⟨?_, ?_, ?_, ?_, ?_, ?_, ?_⟩ <;> intro hx <;>
          simp_all [sendMsg, deleteLast]
      · exact ⟨h1, h2, h3, h4, h5, h6, h7⟩
      · exact ⟨h1, h2, h3, h4, h5, h6, h7⟩
    have hfsm := sessionInv_fsmCallback w data ⟨h1, h2, h3, h4, h5, h6, h7⟩
    simp only [dispatchEvent]
    split_ifs
    · exact hmenu
    · exact sessionInv_sayHtml _ _ hmenu
    · exact hfsm
    · exact sessionInv_sayHtml _ _ hfsm
    · exact ⟨h1, h2, h3, h4, h5, h6, h7⟩

/-- Any run from the empty initial world keeps the session invariant. -/
theorem sessionInv_runEvents (es : List Event) :
    SessionInv (runEvents initialWorld es) := by
  suffices hgen : ∀ w, SessionInv w → SessionInv (runEvents w es) by
    refine hgen initialWorld ?_
    refine ⟨?_, ?_, ?_, ?_, ?_, ?_, ?_⟩ <;> intro hx <;> simp_all [initialWorld]
  induction es with
  | nil => exact fun w h => h
  | cons e rest ih => exact fun w h => ih (dispatchEvent w e) (sessionInv_dispatchEvent w e h)

/-- C5: along every event sequence from an `IDLE` session, whenever the
stored state is `CONFIRM` the payload holds `category`, `store` and `amount`,
all present and non-null. -/
theorem confirm_state_completeness (es : List Event)
    (h : (runEvents initialWorld es).fsm = FsmState.CONFIRM) :
    ((runEvents initialWorld es).payload.category).isSome ∧
    ((runEvents initialWorld es).payload.store).isSome ∧
    ((runEvents initialWorld es).payload.amount).isSome :=
  (sessionInv_runEvents es).2.2.2.1 h

/-- Witness for C5 on a concrete dialog reaching the confirm step. -/
theorem confirm_state_completeness_witness :
    (runEvents initialWorld confirmDialog).fsm = FsmState.CONFIRM ∧
    (((runEvents initialWorld confirmDialog).payload.category).isSome ∧
      ((runEvents initialWorld confirmDialog).payload.store).isSome ∧
      ((runEvents initialWorld confirmDialog).payload.amount).isSome) :=
  ⟨by decide, confirm_state_completeness confirmDialog (by decide)⟩

/-- `digitChar` produces digit characters. -/
theorem digitChar_isDigit : ∀ d : ℕ, d < 10 → (digitChar d).isDigit = true := by decide

/-- `digitVal` inverts `digitChar` below ten. -/
theorem digitVal_digitChar : ∀ d : ℕ, d < 10 → digitVal (digitChar d) = d := by decide

/-- Only zero prints as the digit `0`. -/
theorem digitChar_eq_zero : ∀ d : ℕ, d < 10 → digitChar d = '0' → d = 0 := by decide

/-- `hexVal` inverts `digitHex` below sixteen. -/
theorem hexVal_digitHex : ∀ m : ℕ, m < 16 → hexVal (digitHex m) = some m := by decide

/-- A digit character differs from any non-digit character. -/
theorem digit_ne {c ch : Char} (h : c.isDigit = true) (hch : ch.isDigit = false) :
    ¬c = ch := by
  intro he
  rw [he, hch] at h
  exact Bool.noConfusion h

/-- Appending one digit multiplies the accumulated value by ten. -/
theorem digitsToNat_append_one (ds : List Char) (c : Char) :
    digitsToNat (ds ++ [c]) = 10 * digitsToNat ds + digitVal c := by
  simp [digitsToNat, List.foldl_append]
  omega

/-- The fuel-indexed digit printer is correct below its fuel: nonempty, all
digit characters, value-faithful, and without a superfluous leading zero. -/
theorem natDigitsFuel_spec : ∀ fuel n : ℕ, n < fuel →
    natDigitsFuel fuel n ≠ [] ∧
    (∀ c ∈ natDigitsFuel fuel n, c.isDigit = true) ∧
    digitsToNat (natDigitsFuel fuel n) = n ∧
    (∀ c, (natDigitsFuel fuel n).head? = some c → c = '0' → n = 0) := by
  intro fuel
  induction fuel with
  | zero => intro n hn; omega
  | succ fuel ih =>
    intro n hn
    by_cases hsmall : n < 10
    · refine ⟨by simp [natDigitsFuel, hsmall], ?_, ?_, ?_⟩
      · intro c hc
        simp only [natDigitsFuel, if_pos hsmall, List.mem_singleton] at hc
        exact hc ▸ digitChar_isDigit n hsmall
      · simp [natDigitsFuel, hsmall, digitsToNat, digitVal_digitChar n hsmall]
      · intro c hc hzero
        simp only [natDigitsFuel, if_pos hsmall, List.head?_cons, Option.some.injEq] at hc
        exact digitChar_eq_zero n hsmall (hc ▸ hzero)
    · have hrec : n / 10 < fuel := by omega
      obtain ⟨hne, hall, hval, hhead⟩ := ih (n / 10) hrec
      obtain ⟨d, ds, hd⟩ := List.exists_cons_of_ne_nil hne
      have hmod : n % 10 < 10 := Nat.mod_lt n (by omega)
      refine ⟨by simp [natDigitsFuel, hsmall], ?_, ?_, ?_⟩
      · intro c hc
        simp only [natDigitsFuel, if_neg hsmall, List.mem_append, List.mem_singleton] at hc
        rcases hc with hc | hc
        · exact hall c hc
        · exact hc ▸ digitChar_isDigit _ hmod
      · simp only [natDigitsFuel, if_neg hsmall, digitsToNat_append_one, hval,
          digitVal_digitChar _ hmod]
        omega
      · intro c hc hzero
        rw [natDigitsFuel] at hc
        simp only [if_neg hsmall, hd, List.cons_append, List.head?_cons,
          Option.some.injEq] at hc
        have : n / 10 = 0 := hhead c (by rw [hd]; simpa using hc) hzero
        omega

/-- `natDigits` is nonempty, digit-only, value-faithful and has no
superfluous leading zero. -/
theorem natDigits_spec (n : ℕ) :
    natDigits n ≠ [] ∧
    (∀ c ∈ natDigits n, c.isDigit = true) ∧
    digitsToNat (natDigits n) = n ∧
    (∀ c, (natDigits n).head? = some c → c = '0' → n = 0) :=
  natDigitsFuel_spec (n + 1) n (Nat.lt_succ_self n)

/-- A run of digits followed by a non-digit splits exactly at the
boundary under `takeWhile`/`dropWhile`. -/
theorem takeWhile_digits (ds rest : List Char) (hall : ∀ c ∈ ds, c.isDigit = true)
    (hrest : ∀ c, rest.head? = some c → c.isDigit = false) :
    (ds ++ rest).takeWhile Char.isDigit = ds ∧
    (ds ++ rest).dropWhile Char.isDigit = rest := by
  induction ds with
  | nil =>
    cases rest with
    | nil => simp
    | cons c t =>
      simp [List.takeWhile_cons, List.dropWhile_cons, hrest c rfl]
  | cons d ds ih =>
    have hd := hall d (List.mem_cons_self _ _)
    have ih2 := ih (fun c hc => hall c (List.mem_cons_of_mem _ hc))
    simp [List.takeWhile_cons, List.dropWhile_cons, hd, ih2.1, ih2.2]

/-- `parseNum` inverts `intChars` when followed by a JSON delimiter. -/
theorem parseNum_intChars (n : ℤ) (rest : List Char)
    (hrest : ∀ c, rest.head? = some c →
      c.isDigit = false ∧ ¬c = '.' ∧ ¬c = 'e' ∧ ¬c = 'E') :
    parseNum (intChars n ++ rest) = some (Json.jint n, rest) := by
  have hdot : ¬rest.head? = some '.' := by
    intro hh
    exact (hrest '.' hh).2.1 rfl
  have he2 : ¬rest.head? = some 'e' := by
    intro hh
    exact (hrest 'e' hh).2.2.1 rfl
  have he3 : ¬rest.head? = some 'E' := by
    intro hh
    exact (hrest 'E' hh).2.2.2 rfl
  cases n with
  | ofNat m =>
    obtain ⟨hne, hall, hval, hhead⟩ := natDigits_spec m
    obtain ⟨d, ds, hd⟩ := List.exists_cons_of_ne_nil hne
    have hdd : d.isDigit = true := hall d (by rw [hd]; exact List.mem_cons_self _ _)
    have hdneg : ¬d = '-' := digit_ne hdd (by decide)
    have hsplit := takeWhile_digits (natDigits m) rest hall
      (fun c hc => (hrest c hc).1)
    have hng : ¬((natDigits m ++ rest).head? = some '-') := by
      rw [hd, List.cons_append, List.head?_cons]
      simpa using hdneg
    have hlz : ¬(1 < (natDigits m).length ∧ (natDigits m).head? = some '0') := by
      rintro ⟨hlen, hz⟩
      have hm0 : m = 0 := hhead '0' hz rfl
      subst hm0
      rw [show natDigits 0 = ['0'] from rfl] at hlen
      simp at hlen
    simp only [parseNum, intChars, decide_eq_true_eq, if_neg hng]
    rw [hsplit.1, hsplit.2, if_neg hne, if_neg hlz, if_neg hdot,
      if_neg (by push_neg; exact ⟨he2, he3⟩)]
    simp [hval]
  | negSucc m =>
    obtain ⟨hne, hall, hval, hhead⟩ := natDigits_spec (m + 1)
    have hsplit := takeWhile_digits (natDigits (m + 1)) rest hall
      (fun c hc => (hrest c hc).1)
    have hlz : ¬(1 < (natDigits (m + 1)).length ∧ (natDigits (m + 1)).head? = some '0') := by
      rintro ⟨hlen, hz⟩
      have := hhead '0' hz rfl
      omega
    simp only [parseNum, intChars, List.cons_append, List.head?_cons,
      decide_eq_true_eq, Option.some.injEq, if_pos rfl, List.tail_cons, if_true]
    rw [hsplit.1, hsplit.2, if_neg hne, if_neg hlz, if_neg hdot,
      if_neg (by push_neg; exact ⟨he2, he3⟩)]
    simp [hval, Int.negSucc_eq]

/-- A backslash inside a string dispatches to the escape continuation. -/
theorem parseStringBody_backslash (l : List Char) :
    parseStringBody ('\\' :: l) = parseEscape l := by
  simp [parseStringBody]

/-- The u-escape consumes four hex digits and emits the coded character. -/
theorem parseEscape_u (h1 h2 h3 h4 : Char) (a b c2 d : ℕ) (rest3 : List Char)
    (ha : hexVal h1 = some a) (hb : hexVal h2 = some b)
    (hc : hexVal h3 = some c2) (hd : hexVal h4 = some d) :
    parseEscape ('u' :: h1 :: h2 :: h3 :: h4 :: rest3)
      = (parseStringBody rest3).map
          (fun p => (Char.ofNat (((a * 16 + b) * 16 + c2) * 16 + d) :: p.1, p.2)) := by
  simp only [parseEscape, if_pos rfl]
  rw [ha, hb, hc, hd]
  rfl

/-- `parseStringBody` inverts `escapeChars` up to the closing quote. -/
theorem parseStringBody_escape (s : List Char) : ∀ rest : List Char,
    parseStringBody (escapeChars s ++ ('"' :: rest)) = some (s, rest) := by
  induction s with
  | nil =>
    intro rest
    simp [escapeChars, parseStringBody]
  | cons c cs ih =>
    intro rest
    simp only [escapeChars, List.append_assoc]
    by_cases h1 : c = '"'
    · subst h1
      simp [escChar, parseStringBody, parseEscape, ih]
    · by_cases h2 : c = '\\'
      · subst h2
        simp [escChar, parseStringBody, parseEscape, ih]
      · by_cases h3 : c = '\n'
        · subst h3
          simp [escChar, parseStringBody, parseEscape, ih]
        · by_cases h4 : c = '\r'
          · subst h4
            simp [escChar, parseStringBody, parseEscape, ih]
          · by_cases h5 : c = '\t'
            · subst h5
              simp [escChar, parseStringBody, parseEscape, ih]
            · by_cases h6 : c = Char.ofNat 8
              · subst h6
                simp [escChar, parseStringBody, parseEscape, ih]
              · by_cases h7 : c = Char.ofNat 12
                · subst h7
                  simp [escChar, parseStringBody, parseEscape, ih]
                · by_cases h8 : c.toNat < 32
                  · have hhi : hexVal (digitHex (c.toNat / 16)) = some (c.toNat / 16) :=
                      hexVal_digitHex _ (by omega)
                    have hlo : hexVal (digitHex (c.toNat % 16)) = some (c.toNat % 16) :=
                      hexVal_digitHex _ (by omega)
                    simp only [escChar, if_neg h1, if_neg h2, if_neg h3, if_neg h4,
                      if_neg h5, if_neg h6, if_neg h7, if_pos h8, List.cons_append,
                      List.nil_append]
                    rw [parseStringBody_backslash,
                      parseEscape_u '0' '0' (digitHex (c.toNat / 16))
                        (digitHex (c.toNat % 16)) 0 0 (c.toNat / 16) (c.toNat % 16)
                        (escapeChars cs ++ '"' :: rest) rfl rfl hhi hlo,
                      ih]
                    have harith : ((0 * 16 + 0) * 16 + c.toNat / 16) * 16 + c.toNat % 16
                        = c.toNat := by omega
                    show some (Char.ofNat (((0 * 16 + 0) * 16 + c.toNat / 16) * 16
                      + c.toNat % 16) :: cs, rest) = some (c :: cs, rest)
                    rw [harith, Char.ofNat_toNat]
                  · simp only [escChar, if_neg h1, if_neg h2, if_neg h3, if_neg h4,
                      if_neg h5, if_neg h6, if_neg h7, if_neg h8, List.cons_append,
                      List.nil_append]
                    simp [parseStringBody, h1, h2, h8, ih]

/-- `skipWs` does not move past a non-whitespace head character. -/
theorem skipWs_cons_of (c : Char) (l : List Char) (h1 : ¬c = ' ') (h2 : ¬c = '\t')
    (h3 : ¬c = '\n') (h4 : ¬c = '\r') : skipWs (c :: l) = c :: l := by
  simp [skipWs, List.dropWhile_cons, h1, h2, h3, h4]

/-- `skipWs` absorbs a leading space. -/
theorem skipWs_space (l : List Char) : skipWs (' ' :: l) = skipWs l := by
  simp [skipWs, List.dropWhile_cons]

/-- A leading space does not change the parse of a value. -/
theorem parseVal_space (fuel : ℕ) (cs : List Char) :
    parseVal fuel (' ' :: cs) = parseVal fuel cs := by
  cases fuel with
  | zero => rfl
  | succ f => simp only [parseVal, skipWs_space]

/-- A leading space does not change the parse of an item list. -/
theorem parseItems_space (fuel : ℕ) (cs : List Char) :
    parseItems fuel (' ' :: cs) = parseItems fuel cs := by
  cases fuel with
  | zero => rfl
  | succ f => simp only [parseItems, parseVal_space]

/-- A leading space does not change the parse of a member list. -/
theorem parseMembers_space (fuel : ℕ) (cs : List Char) :
    parseMembers fuel (' ' :: cs) = parseMembers fuel cs := by
  cases fuel with
  | zero => rfl
  | succ f => simp only [parseMembers, skipWs_space]

/-- A digit character is none of the JSON structural characters checked by
the scanner. -/
theorem digit_head_facts {c : Char} (h : c.isDigit = true) :
    ¬c = ' ' ∧ ¬c = '\t' ∧ ¬c = '\n' ∧ ¬c = '\r' ∧ ¬c = ']' ∧ ¬c = 'n' ∧
    ¬c = 't' ∧ ¬c = 'f' ∧ ¬c = '"' ∧ ¬c = '[' ∧ ¬c = lbraceChar ∧
    ¬c = 'N' ∧ ¬c = 'I' ∧ ¬c = '-' :=
  ⟨digit_ne h (by decide), digit_ne h (by decide), digit_ne h (by decide),
   digit_ne h (by decide), digit_ne h (by decide), digit_ne h (by decide),
   digit_ne h (by decide), digit_ne h (by decide), digit_ne h (by decide),
   digit_ne h (by decide), digit_ne h (by decide), digit_ne h (by decide),
   digit_ne h (by decide), digit_ne h (by decide)⟩

/-- Every printed value starts with a character that is not whitespace and
not a closing bracket. -/
theorem dumpsVal_head (v : Json) : ∃ c t, dumpsVal v = c :: t ∧
    ¬c = ' ' ∧ ¬c = '\t' ∧ ¬c = '\n' ∧ ¬c = '\r' ∧ ¬c = ']' := by
  cases v with
  | jnull => exact ⟨'n', _, rfl, by decide, by decide, by decide, by decide, by decide⟩
  | jbool b =>
    cases b with
    | true => exact ⟨'t', _, rfl, by decide, by decide, by decide, by decide, by decide⟩
    | false => exact ⟨'f', _, rfl, by decide, by decide, by decide, by decide, by decide⟩
  | jint n =>
    cases n with
    | ofNat m =>
      obtain ⟨hne, hall, -, -⟩ := natDigits_spec m
      cases hd : natDigits m with
      | nil => exact absurd hd hne
      | cons c t =>
        have hc : c.isDigit = true := hall c (by rw [hd]; exact List.mem_cons_self _ _)
        obtain ⟨p1, p2, p3, p4, p5, -⟩ := digit_head_facts hc
        exact ⟨c, t, by simp [dumpsVal, intChars, hd], p1, p2, p3, p4, p5⟩
    | negSucc m =>
      exact ⟨'-', natDigits (m + 1), by simp [dumpsVal, intChars], by decide, by decide,
        by decide, by decide, by decide⟩
  | jfloat x =>
    cases x with
    | nan => exact ⟨'N', _, rfl, by decide, by decide, by decide, by decide, by decide⟩
    | inf => exact ⟨'I', _, rfl, by decide, by decide, by decide, by decide, by decide⟩
    | neginf =>
      exact ⟨'-', ['I', 'n', 'f', 'i', 'n', 'i', 't', 'y'], rfl, by decide, by decide,
        by decide, by decide, by decide⟩
    | dec m k =>
      rcases m with a | p
      · obtain ⟨hne, hall, -, -⟩ := natDigits_spec (a / 10 ^ (k + 1))
        cases hd : natDigits (a / 10 ^ (k + 1)) with
        | nil => exact absurd hd hne
        | cons c t =>
          have hc : c.isDigit = true :=
            hall c (by rw [hd]; exact List.mem_cons_self _ _)
          obtain ⟨p1, p2, p3, p4, p5, -⟩ := digit_head_facts hc
          refine ⟨c, t ++ ('.' :: decDigits a (k + 1)), ?_, p1, p2, p3, p4, p5⟩
          show (if (Int.ofNat a) < 0 then ['-'] else []) ++
            (natDigits ((Int.ofNat a).natAbs / 10 ^ (k + 1)) ++
              ('.' :: decDigits (Int.ofNat a).natAbs (k + 1))) = _
          rw [if_neg (show ¬(Int.ofNat a < 0) by rw [Int.ofNat_eq_coe]; omega)]
          show natDigits (a / 10 ^ (k + 1)) ++ ('.' :: decDigits a (k + 1)) = _
          rw [hd]
          simp
      · refine ⟨'-', natDigits ((p + 1) / 10 ^ (k + 1)) ++
          ('.' :: decDigits (p + 1) (k + 1)), ?_, by decide, by decide, by decide,
          by decide, by decide⟩
        show (if (Int.negSucc p) < 0 then ['-'] else []) ++
          (natDigits ((Int.negSucc p).natAbs / 10 ^ (k + 1)) ++
            ('.' :: decDigits (Int.negSucc p).natAbs (k + 1))) = _
        rw [if_pos (Int.negSucc_lt_zero p)]
        rfl
  | jstr s => exact ⟨'"', _, rfl, by decide, by decide, by decide, by decide, by decide⟩
  | jarr xs => exact ⟨'[', _, rfl, by decide, by decide, by decide, by decide, by decide⟩
  | jobj fs =>
    exact ⟨lbraceChar, _, rfl, by decide, by decide, by decide, by decide, by decide⟩

/-- The printed form of a value is never empty. -/
theorem dumpsVal_length_pos (v : Json) : 1 ≤ (dumpsVal v).length := by
  obtain ⟨c, t, hd, -⟩ := dumpsVal_head v
  rw [hd]
  simp

/-- The empty remainder is a valid number delimiter. -/
theorem numDelimOK_nil : numDelimOK [] := by
  intro c hc
  simp at hc

/-- A remainder headed by a non-numeric character is a valid delimiter. -/
theorem numDelimOK_cons (c : Char) (r : List Char) (h1 : c.isDigit = false)
    (h2 : ¬c = '.') (h3 : ¬c = 'e') (h4 : ¬c = 'E') : numDelimOK (c :: r) := by
  intro d hd
  simp at hd
  subst hd
  exact ⟨h1, h2, h3, h4⟩

/-- `parseVal` on a non-structural head character falls through to the
number branch. -/
theorem parseVal_num (fuel : ℕ) (c : Char) (l : List Char)
    (h1 : ¬c = ' ') (h2 : ¬c = '\t') (h3 : ¬c = '\n') (h4 : ¬c = '\r')
    (hn : ¬c = 'n') (ht : ¬c = 't') (hf : ¬c = 'f') (hq : ¬c = '"')
    (hlb : ¬c = '[') (hob : ¬c = lbraceChar) (hN : ¬c = 'N') (hI2 : ¬c = 'I')
    (hmi : ¬c = '-') :
    parseVal (fuel + 1) (c :: l) = parseNum (c :: l) := by
  simp only [parseVal, skipWs_cons_of c l h1 h2 h3 h4]
  rw [if_neg hn, if_neg ht, if_neg hf, if_neg hq, if_neg hlb, if_neg hob,
    if_neg hN, if_neg hI2, if_neg hmi]

/-- A literal never matches a continuation starting with a different
character. -/
theorem stripLit_head_ne (p : Char) (ps : List Char) (c : Char) (cs : List Char)
    (h : ¬c = p) : stripLit (p :: ps) (c :: cs) = none := by
  simp [stripLit, h]

/-- `parseVal` on a minus sign that does not open `-Infinity` falls through
to the number branch. -/
theorem parseVal_minus (fuel : ℕ) (l : List Char)
    (hstrip : stripLit ['I', 'n', 'f', 'i', 'n', 'i', 't', 'y'] l = none) :
    parseVal (fuel + 1) ('-' :: l) = parseNum ('-' :: l) := by
  simp only [parseVal,
    skipWs_cons_of '-' l (by decide) (by decide) (by decide) (by decide)]
  rw [if_neg (by decide), if_neg (by decide), if_neg (by decide), if_neg (by decide),
    if_neg (by decide), if_neg (by decide), if_neg (by decide), if_neg (by decide),
    if_pos trivial, hstrip]

/-- `decDigits` produces exactly `k` digit characters whose value is
`n mod 10^k`. -/
theorem decDigits_spec : ∀ (k n : ℕ),
    (decDigits n k).length = k ∧ (∀ c ∈ decDigits n k, c.isDigit = true) ∧
    digitsToNat (decDigits n k) = n % 10 ^ k := by
  intro k
  induction k with
  | zero =>
    intro n
    exact ⟨rfl, by simp [decDigits], by simp [decDigits, digitsToNat, Nat.mod_one]⟩
  | succ k ih =>
    intro n
    obtain ⟨ihl, ihd, ihv⟩ := ih (n / 10)
    refine ⟨?_, ?_, ?_⟩
    · simp [decDigits, ihl]
    · intro c hc
      simp only [decDigits, List.mem_append, List.mem_singleton] at hc
      rcases hc with hc | hc
      · exact ihd c hc
      · rw [hc]
        exact digitChar_isDigit _ (Nat.mod_lt _ (by omega))
    · rw [show decDigits n (k + 1) = decDigits (n / 10) k ++ [digitChar (n % 10)]
          from rfl,
        digitsToNat_append_one, ihv, digitVal_digitChar _ (Nat.mod_lt _ (by omega)),
        pow_succ', Nat.mod_mul]
      omega

/-- `parseNum` inverts `floatChars` on a finite decimal when followed by a
JSON delimiter. -/
theorem parseNum_floatChars (m : ℤ) (k : ℕ) (rest : List Char)
    (hrest : ∀ c, rest.head? = some c →
      c.isDigit = false ∧ ¬c = '.' ∧ ¬c = 'e' ∧ ¬c = 'E') :
    parseNum (floatChars (JFloat.dec m k) ++ rest)
      = some (Json.jfloat (JFloat.dec m k), rest) := by
  have hdot : ¬rest.head? = some '.' := fun hh => (hrest '.' hh).2.1 rfl
  have he2 : ¬rest.head? = some 'e' := fun hh => (hrest 'e' hh).2.2.1 rfl
  have he3 : ¬rest.head? = some 'E' := fun hh => (hrest 'E' hh).2.2.2 rfl
  rcases m with a | p
  · -- nonnegative: no sign character
    obtain ⟨hdl, hdd, hdv⟩ := decDigits_spec (k + 1) a
    have hfsplit := takeWhile_digits (decDigits a (k + 1)) rest hdd
      (fun c hc => (hrest c hc).1)
    obtain ⟨hne, hall, hval, hhead⟩ := natDigits_spec (a / 10 ^ (k + 1))
    have hisplit := takeWhile_digits (natDigits (a / 10 ^ (k + 1)))
      ('.' :: (decDigits a (k + 1) ++ rest)) hall
      (fun c hc => by simp at hc; subst hc; decide)
    have hlz : ¬(1 < (natDigits (a / 10 ^ (k + 1))).length ∧
        (natDigits (a / 10 ^ (k + 1))).head? = some '0') := by
      rintro ⟨hlen, hz⟩
      have h0 : a / 10 ^ (k + 1) = 0 := hhead '0' hz rfl
      rw [h0, show natDigits 0 = ['0'] from rfl] at hlen
      simp at hlen
    have hfne : ¬decDigits a (k + 1) = [] := by
      intro hcon
      rw [hcon] at hdl
      simp at hdl
    obtain ⟨d, ds, hd⟩ := List.exists_cons_of_ne_nil hne
    have hdd2 : d.isDigit = true := hall d (by rw [hd]; exact List.mem_cons_self _ _)
    have hdneg : ¬d = '-' := digit_ne hdd2 (by decide)
    have hfc : floatChars (JFloat.dec (Int.ofNat a) k) ++ rest
        = natDigits (a / 10 ^ (k + 1)) ++ ('.' :: (decDigits a (k + 1) ++ rest)) := by
      show ((if (Int.ofNat a) < 0 then ['-'] else []) ++
        (natDigits ((Int.ofNat a).natAbs / 10 ^ (k + 1)) ++
          ('.' :: decDigits (Int.ofNat a).natAbs (k + 1)))) ++ rest = _
      rw [if_neg (show ¬(Int.ofNat a < 0) by rw [Int.ofNat_eq_coe]; omega)]
      simp
    rw [hfc]
    have hng : ¬((natDigits (a / 10 ^ (k + 1)) ++
        ('.' :: (decDigits a (k + 1) ++ rest))).head? = some '-') := by
      rw [hd, List.cons_append, List.head?_cons]
      simpa using hdneg
    simp only [parseNum, decide_eq_true_eq, if_neg hng]
    rw [hisplit.1, hisplit.2, if_neg hne, if_neg hlz]
    simp only [List.head?_cons, List.tail_cons]
    rw [if_pos trivial, hfsplit.1, hfsplit.2, if_neg hfne,
      if_neg (by push_neg; exact ⟨he2, he3⟩)]
    simp only [hdl, hval, hdv, Nat.div_add_mod]
    simp
    exact Int.ediv_add_emod' _ _
  · -- negative: leading minus
    obtain ⟨hdl, hdd, hdv⟩ := decDigits_spec (k + 1) (p + 1)
    have hfsplit := takeWhile_digits (decDigits (p + 1) (k + 1)) rest hdd
      (fun c hc => (hrest c hc).1)
    obtain ⟨hne, hall, hval, hhead⟩ := natDigits_spec ((p + 1) / 10 ^ (k + 1))
    have hisplit := takeWhile_digits (natDigits ((p + 1) / 10 ^ (k + 1)))
      ('.' :: (decDigits (p + 1) (k + 1) ++ rest)) hall
      (fun c hc => by simp at hc; subst hc; decide)
    have hlz : ¬(1 < (natDigits ((p + 1) / 10 ^ (k + 1))).length ∧
        (natDigits ((p + 1) / 10 ^ (k + 1))).head? = some '0') := by
      rintro ⟨hlen, hz⟩
      have h0 : (p + 1) / 10 ^ (k + 1) = 0 := hhead '0' hz rfl
      rw [h0, show natDigits 0 = ['0'] from rfl] at hlen
      simp at hlen
    have hfne : ¬decDigits (p + 1) (k + 1) = [] := by
      intro hcon
      rw [hcon] at hdl
      simp at hdl
    have hfc : floatChars (JFloat.dec (Int.negSucc p) k) ++ rest
        = '-' :: (natDigits ((p + 1) / 10 ^ (k + 1)) ++
          ('.' :: (decDigits (p + 1) (k + 1) ++ rest))) := by
      show ((if (Int.negSucc p) < 0 then ['-'] else []) ++
        (natDigits ((Int.negSucc p).natAbs / 10 ^ (k + 1)) ++
          ('.' :: decDigits (Int.negSucc p).natAbs (k + 1)))) ++ rest = _
      rw [if_pos (Int.negSucc_lt_zero p)]
      simp
    rw [hfc]
    simp only [parseNum, List.head?_cons, decide_eq_true_eq, Option.some.injEq,
      if_pos rfl, List.tail_cons, if_true]
    rw [hisplit.1, hisplit.2, if_neg hne, if_neg hlz]
    simp only [List.head?_cons, List.tail_cons]
    rw [if_pos trivial, hfsplit.1, hfsplit.2, if_neg hfne,
      if_neg (by push_neg; exact ⟨he2, he3⟩)]
    simp only [hdl, hval, hdv, Nat.div_add_mod]
    simp [Int.negSucc_eq]
    have hA := Int.ediv_add_emod' ((p : ℤ) + 1) (10 ^ (k + 1))
    linarith

/-- The recursive-descent parser inverts the printer: a printed value parses
back exactly (given enough fuel and a remainder that cannot extend a numeric
literal), and printed non-empty item and member lists parse back up to their
closing bracket. -/
theorem parse_dumps_roundtrip (fuel : ℕ) :
    (∀ v rest, (dumpsVal v).length ≤ fuel → numDelimOK rest →
      parseVal fuel (dumpsVal v ++ rest) = some (v, rest)) ∧
    (∀ x xs rest, (dumpsItems (JsonItems.cons x xs)).length < fuel →
      parseItems fuel (dumpsItems (JsonItems.cons x xs) ++ (']' :: rest))
        = some (JsonItems.cons x xs, rest)) ∧
    (∀ k v fs rest, (dumpsMembers (JsonMembers.cons k v fs)).length < fuel →
      parseMembers fuel (dumpsMembers (JsonMembers.cons k v fs) ++ (rbraceChar :: rest))
        = some (JsonMembers.cons k v fs, rest)) := by
  induction fuel with
  | zero =>
    refine ⟨?_, ?_, ?_⟩
    · intro v rest hlen _
      exact absurd hlen (by have := dumpsVal_length_pos v; omega)
    · intro x xs rest hlen
      exact absurd hlen (by omega)
    · intro k v fs rest hlen
      exact absurd hlen (by omega)
  | succ f ih =>
    obtain ⟨ihP, ihQ, ihR⟩ := ih
    refine ⟨?_, ?_, ?_⟩
    · intro v rest hlen hrest
      cases v with
      | jnull => simp [dumpsVal, parseVal, skipWs, stripLit]
      | jbool b => cases b <;> simp [dumpsVal, parseVal, skipWs, stripLit]
      | jint n =>
        have hpn : parseNum (intChars n ++ rest) = some (Json.jint n, rest) :=
          parseNum_intChars n rest hrest
        cases n with
        | ofNat m =>
          obtain ⟨hne, hall, -, -⟩ := natDigits_spec m
          cases hd : natDigits m with
          | nil => exact absurd hd hne
          | cons c t =>
            have hc : c.isDigit = true := hall c (by rw [hd]; exact List.mem_cons_self _ _)
            obtain ⟨p1, p2, p3, p4, -, p6, p7, p8, p9, p10, p11, p12, p13, p14⟩ :=
              digit_head_facts hc
            have hfold : dumpsVal (Json.jint (Int.ofNat m)) ++ rest = c :: (t ++ rest) := by
              show intChars (Int.ofNat m) ++ rest = c :: (t ++ rest)
              rw [show intChars (Int.ofNat m) = natDigits m from rfl, hd, List.cons_append]
            rw [hfold,
              parseVal_num f c (t ++ rest) p1 p2 p3 p4 p6 p7 p8 p9 p10 p11 p12 p13 p14,
              show c :: (t ++ rest) = intChars (Int.ofNat m) ++ rest from by
                rw [show intChars (Int.ofNat m) = natDigits m from rfl, hd,
                  List.cons_append],
              hpn]
        | negSucc m =>
          obtain ⟨hne, hall, -, -⟩ := natDigits_spec (m + 1)
          cases hd : natDigits (m + 1) with
          | nil => exact absurd hd hne
          | cons c t =>
            have hc : c.isDigit = true := hall c (by rw [hd]; exact List.mem_cons_self _ _)
            have hstrip : stripLit ['I', 'n', 'f', 'i', 'n', 'i', 't', 'y']
                (natDigits (m + 1) ++ rest) = none := by
              rw [hd, List.cons_append]
              exact stripLit_head_ne 'I' _ c _ (digit_ne hc (by decide))
            have hfold : dumpsVal (Json.jint (Int.negSucc m)) ++ rest
                = '-' :: (natDigits (m + 1) ++ rest) := by
              show intChars (Int.negSucc m) ++ rest = _
              rw [show intChars (Int.negSucc m) = '-' :: natDigits (m + 1) from rfl,
                List.cons_append]
            rw [hfold, parseVal_minus f (natDigits (m + 1) ++ rest) hstrip,
              show '-' :: (natDigits (m + 1) ++ rest)
                  = intChars (Int.negSucc m) ++ rest from by
                rw [show intChars (Int.negSucc m) = '-' :: natDigits (m + 1) from rfl,
                  List.cons_append],
              hpn]
      | jfloat x =>
        cases x with
        | nan =>
          simp [dumpsVal, floatChars, parseVal, skipWs, stripLit, lbraceChar, rbraceChar]
        | inf =>
          simp [dumpsVal, floatChars, parseVal, skipWs, stripLit, lbraceChar, rbraceChar]
        | neginf =>
          simp [dumpsVal, floatChars, parseVal, skipWs, stripLit, lbraceChar, rbraceChar]
        | dec m k =>
          have hpn := parseNum_floatChars m k rest hrest
          rcases m with a | p
          · obtain ⟨hne, hall, -, -⟩ := natDigits_spec (a / 10 ^ (k + 1))
            have hfc : floatChars (JFloat.dec (Int.ofNat a) k)
                = natDigits (a / 10 ^ (k + 1)) ++ ('.' :: decDigits a (k + 1)) := by
              show (if (Int.ofNat a) < 0 then ['-'] else []) ++
                (natDigits ((Int.ofNat a).natAbs / 10 ^ (k + 1)) ++
                  ('.' :: decDigits (Int.ofNat a).natAbs (k + 1))) = _
              rw [if_neg (show ¬(Int.ofNat a < 0) by rw [Int.ofNat_eq_coe]; omega)]
              rfl
            cases hd : natDigits (a / 10 ^ (k + 1)) with
            | nil => exact absurd hd hne
            | cons c t =>
              have hc : c.isDigit = true :=
                hall c (by rw [hd]; exact List.mem_cons_self _ _)
              obtain ⟨p1, p2, p3, p4, -, p6, p7, p8, p9, p10, p11, p12, p13, p14⟩ :=
                digit_head_facts hc
              have hfold : dumpsVal (Json.jfloat (JFloat.dec (Int.ofNat a) k)) ++ rest
                  = c :: (t ++ (('.' :: decDigits a (k + 1)) ++ rest)) := by
                show floatChars (JFloat.dec (Int.ofNat a) k) ++ rest = _
                rw [hfc, hd]
                simp
              rw [hfold,
                parseVal_num f c _ p1 p2 p3 p4 p6 p7 p8 p9 p10 p11 p12 p13 p14,
                show c :: (t ++ (('.' :: decDigits a (k + 1)) ++ rest))
                    = floatChars (JFloat.dec (Int.ofNat a) k) ++ rest from by
                  rw [hfc, hd]
                  simp,
                hpn]
          · obtain ⟨hne, hall, -, -⟩ := natDigits_spec ((p + 1) / 10 ^ (k + 1))
            have hfc : floatChars (JFloat.dec (Int.negSucc p) k)
                = '-' :: (natDigits ((p + 1) / 10 ^ (k + 1)) ++
                  ('.' :: decDigits (p + 1) (k + 1))) := by
              show (if (Int.negSucc p) < 0 then ['-'] else []) ++
                (natDigits ((Int.negSucc p).natAbs / 10 ^ (k + 1)) ++
                  ('.' :: decDigits (Int.negSucc p).natAbs (k + 1))) = _
              rw [if_pos (Int.negSucc_lt_zero p)]
              rfl
            cases hd : natDigits ((p + 1) / 10 ^ (k + 1)) with
            | nil => exact absurd hd hne
            | cons c t =>
              have hc : c.isDigit = true :=
                hall c (by rw [hd]; exact List.mem_cons_self _ _)
              have hstrip : stripLit ['I', 'n', 'f', 'i', 'n', 'i', 't', 'y']
                  ((natDigits ((p + 1) / 10 ^ (k + 1)) ++
                    ('.' :: decDigits (p + 1) (k + 1))) ++ rest) = none := by
                rw [hd]
                simp only [List.cons_append]
                exact stripLit_head_ne 'I' _ c _ (digit_ne hc (by decide))
              have hfold : dumpsVal (Json.jfloat (JFloat.dec (Int.negSucc p) k)) ++ rest
                  = '-' :: ((natDigits ((p + 1) / 10 ^ (k + 1)) ++
                    ('.' :: decDigits (p + 1) (k + 1))) ++ rest) := by
                show floatChars (JFloat.dec (Int.negSucc p) k) ++ rest = _
                rw [hfc]
                simp
              rw [hfold, parseVal_minus f _ hstrip,
                show '-' :: ((natDigits ((p + 1) / 10 ^ (k + 1)) ++
                    ('.' :: decDigits (p + 1) (k + 1))) ++ rest)
                    = floatChars (JFloat.dec (Int.negSucc p) k) ++ rest from by
                  rw [hfc]
                  simp,
                hpn]
      | jstr s =>
        have hsb := parseStringBody_escape s rest
        have hnorm : dumpsVal (Json.jstr s) ++ rest
            = '"' :: (escapeChars s ++ ('"' :: rest)) := by
          show ('"' :: (escapeChars s ++ ['"'])) ++ rest = _
          simp
        rw [hnorm]
        simp only [parseVal, skipWs_cons_of '"' (escapeChars s ++ ('"' :: rest)) (by decide)
          (by decide) (by decide) (by decide)]
        simp [hsb]
      | jarr xs =>
        cases xs with
        | nil => simp [dumpsVal, dumpsItems, parseVal, skipWs]
        | cons x xs2 =>
          obtain ⟨cx, tx, hdx, q1, q2, q3, q4, q5⟩ := dumpsVal_head x
          obtain ⟨s, hs⟩ : ∃ s, dumpsItems (JsonItems.cons x xs2) = dumpsVal x ++ s := by
            cases xs2 with
            | nil => exact ⟨[], by simp [dumpsItems]⟩
            | cons y ys => exact ⟨',' :: ' ' :: dumpsItems (JsonItems.cons y ys), rfl⟩
          have hlen2 : (dumpsItems (JsonItems.cons x xs2)).length < f := by
            have : (dumpsVal (Json.jarr (JsonItems.cons x xs2))).length
                = (dumpsItems (JsonItems.cons x xs2)).length + 2 := by
              simp [dumpsVal]
            omega
          have hQ := ihQ x xs2 rest hlen2
          rw [hs, hdx, List.append_assoc, List.cons_append] at hQ
          have hnorm : dumpsVal (Json.jarr (JsonItems.cons x xs2)) ++ rest
              = '[' :: (cx :: (tx ++ (s ++ (']' :: rest)))) := by
            show ('[' :: (dumpsItems (JsonItems.cons x xs2) ++ [']'])) ++ rest = _
            rw [hs, hdx]
            simp
          rw [hnorm]
          simp only [parseVal,
            skipWs_cons_of '[' (cx :: (tx ++ (s ++ (']' :: rest)))) (by decide) (by decide)
              (by decide) (by decide),
            skipWs_cons_of cx (tx ++ (s ++ (']' :: rest))) q1 q2 q3 q4, q5, hQ]
          simp
      | jobj fs =>
        cases fs with
        | nil =>
          have hnorm : dumpsVal (Json.jobj JsonMembers.nil) ++ rest
              = lbraceChar :: (rbraceChar :: rest) := by
            show (lbraceChar :: (dumpsMembers JsonMembers.nil ++ [rbraceChar])) ++ rest = _
            simp [dumpsMembers]
          rw [hnorm]
          simp only [parseVal,
            skipWs_cons_of lbraceChar (rbraceChar :: rest) (by decide) (by decide)
              (by decide) (by decide),
            skipWs_cons_of rbraceChar rest (by decide) (by decide) (by decide) (by decide)]
          simp [lbraceChar, rbraceChar]
        | cons k v fs2 =>
          obtain ⟨s, hs⟩ : ∃ s, dumpsMembers (JsonMembers.cons k v fs2) = '"' :: s := by
            cases fs2 with
            | nil => exact ⟨_, rfl⟩
            | cons k2 v2 fsx => exact ⟨_, rfl⟩
          have hlen2 : (dumpsMembers (JsonMembers.cons k v fs2)).length < f := by
            have : (dumpsVal (Json.jobj (JsonMembers.cons k v fs2))).length
                = (dumpsMembers (JsonMembers.cons k v fs2)).length + 2 := by
              simp [dumpsVal]
            omega
          have hR := ihR k v fs2 rest hlen2
          rw [hs, List.cons_append] at hR
          have hnorm : dumpsVal (Json.jobj (JsonMembers.cons k v fs2)) ++ rest
              = lbraceChar :: ('"' :: (s ++ (rbraceChar :: rest))) := by
            show (lbraceChar :: (dumpsMembers (JsonMembers.cons k v fs2) ++ [rbraceChar]))
                ++ rest = _
            rw [hs]
            simp
          rw [hnorm]
          simp only [parseVal,
            skipWs_cons_of lbraceChar ('"' :: (s ++ (rbraceChar :: rest))) (by decide)
              (by decide) (by decide) (by decide),
            skipWs_cons_of '"' (s ++ (rbraceChar :: rest)) (by decide) (by decide)
              (by decide) (by decide), hR]
          simp [lbraceChar, rbraceChar]
    · intro x xs rest hlen
      cases xs with
      | nil =>
        have hlenx : (dumpsVal x).length ≤ f := by
          simp [dumpsItems] at hlen
          omega
        have hP := ihP x (']' :: rest) hlenx
          (numDelimOK_cons ']' rest (by decide) (by decide) (by decide) (by decide))
        simp only [dumpsItems]
        simp only [parseItems, hP,
          skipWs_cons_of ']' rest (by decide) (by decide) (by decide) (by decide)]
        simp
      | cons y ys =>
        have hlx := dumpsVal_length_pos x
        have hlen' : (dumpsItems (JsonItems.cons x (JsonItems.cons y ys))).length
            = (dumpsVal x).length + 2 + (dumpsItems (JsonItems.cons y ys)).length := by
          simp [dumpsItems]
          omega
        have hlenx : (dumpsVal x).length ≤ f := by omega
        have hlenq : (dumpsItems (JsonItems.cons y ys)).length < f := by omega
        have hP := ihP x (',' :: ' ' :: (dumpsItems (JsonItems.cons y ys) ++ (']' :: rest)))
          hlenx (numDelimOK_cons ',' _ (by decide) (by decide) (by decide) (by decide))
        have hQ := ihQ y ys rest hlenq
        have hnorm : dumpsItems (JsonItems.cons x (JsonItems.cons y ys)) ++ (']' :: rest)
            = dumpsVal x ++ (',' :: ' ' :: (dumpsItems (JsonItems.cons y ys)
              ++ (']' :: rest))) := by
          show (dumpsVal x ++ (',' :: ' ' :: dumpsItems (JsonItems.cons y ys)))
              ++ (']' :: rest) = _
          simp
        rw [hnorm]
        simp only [parseItems, hP,
          skipWs_cons_of ',' (' ' :: (dumpsItems (JsonItems.cons y ys) ++ (']' :: rest)))
            (by decide) (by decide) (by decide) (by decide),
          parseItems_space, hQ]
        simp
    · intro k v fs rest hlen
      cases fs with
      | nil =>
        have hlenv : (dumpsVal v).length ≤ f := by
          have : (dumpsMembers (JsonMembers.cons k v JsonMembers.nil)).length
              = (escapeChars k).length + (dumpsVal v).length + 4 := by
            simp [dumpsMembers]
            omega
          omega
        have hP := ihP v (rbraceChar :: rest) hlenv
          (numDelimOK_cons rbraceChar rest (by decide) (by decide) (by decide) (by decide))
        have hsb := parseStringBody_escape k
          (':' :: ' ' :: (dumpsVal v ++ (rbraceChar :: rest)))
        have hnorm : dumpsMembers (JsonMembers.cons k v JsonMembers.nil)
              ++ (rbraceChar :: rest)
            = '"' :: (escapeChars k ++ ('"' :: (':' :: ' '
              :: (dumpsVal v ++ (rbraceChar :: rest))))) := by
          show ('"' :: (escapeChars k ++ ('"' :: ':' :: ' ' :: dumpsVal v)))
              ++ (rbraceChar :: rest) = _
          simp
        rw [hnorm]
        simp only [parseMembers,
          skipWs_cons_of '"' (escapeChars k ++ ('"' :: (':' :: ' '
              :: (dumpsVal v ++ (rbraceChar :: rest))))) (by decide) (by decide)
            (by decide) (by decide),
          hsb,
          skipWs_cons_of ':' (' ' :: (dumpsVal v ++ (rbraceChar :: rest)))
            (by decide) (by decide) (by decide) (by decide),
          parseVal_space, hP,
          skipWs_cons_of rbraceChar rest (by decide) (by decide) (by decide) (by decide)]
        simp [rbraceChar]
      | cons k2 v2 fs2 =>
        have hlv := dumpsVal_length_pos v
        have hlen' : (dumpsMembers (JsonMembers.cons k v (JsonMembers.cons k2 v2 fs2))).length
            = (escapeChars k).length + (dumpsVal v).length + 6
              + (dumpsMembers (JsonMembers.cons k2 v2 fs2)).length := by
          simp [dumpsMembers]
          omega
        have hlenv : (dumpsVal v).length ≤ f := by omega
        have hlenr : (dumpsMembers (JsonMembers.cons k2 v2 fs2)).length < f := by omega
        have hP := ihP v (',' :: ' ' :: (dumpsMembers (JsonMembers.cons k2 v2 fs2)
            ++ (rbraceChar :: rest)))
          hlenv (numDelimOK_cons ',' _ (by decide) (by decide) (by decide) (by decide))
        have hR := ihR k2 v2 fs2 rest hlenr
        have hsb := parseStringBody_escape k
          (':' :: ' ' :: (dumpsVal v ++ (',' :: ' '
            :: (dumpsMembers (JsonMembers.cons k2 v2 fs2) ++ (rbraceChar :: rest)))))
        have hnorm : dumpsMembers (JsonMembers.cons k v (JsonMembers.cons k2 v2 fs2))
              ++ (rbraceChar :: rest)
            = '"' :: (escapeChars k ++ ('"' :: (':' :: ' ' :: (dumpsVal v ++ (',' :: ' '
              :: (dumpsMembers (JsonMembers.cons k2 v2 fs2)
                ++ (rbraceChar :: rest))))))) := by
          show (('"' :: (escapeChars k ++ ('"' :: ':' :: ' ' :: dumpsVal v)))
              ++ (',' :: ' ' :: dumpsMembers (JsonMembers.cons k2 v2 fs2)))
              ++ (rbraceChar :: rest) = _
          simp
        rw [hnorm]
        simp only [parseMembers,
          skipWs_cons_of '"' (escapeChars k ++ ('"' :: (':' :: ' ' :: (dumpsVal v
              ++ (',' :: ' ' :: (dumpsMembers (JsonMembers.cons k2 v2 fs2)
                ++ (rbraceChar :: rest))))))) (by decide) (by decide)
            (by decide) (by decide),
          hsb,
          skipWs_cons_of ':' (' ' :: (dumpsVal v ++ (',' :: ' '
              :: (dumpsMembers (JsonMembers.cons k2 v2 fs2) ++ (rbraceChar :: rest)))))
            (by decide) (by decide) (by decide) (by decide),
          parseVal_space, hP,
          skipWs_cons_of ',' (' ' :: (dumpsMembers (JsonMembers.cons k2 v2 fs2)
              ++ (rbraceChar :: rest)))
            (by decide) (by decide) (by decide) (by decide),
          parseMembers_space, hR]
        simp [rbraceChar]

/-- `json.loads` inverts `json.dumps` on every modelled value. -/
theorem loads_dumps (v : Json) : loads (dumpsVal v) = some v := by
  have h := (parse_dumps_roundtrip ((dumpsVal v).length + 1)).1 v [] (by omega) numDelimOK_nil
  rw [List.append_nil] at h
  unfold loads
  rw [h]
  simp [skipWs]

/-- A member's key occurs among the dict keys (by induction on the member
count, since the member list belongs to a mutual inductive family). -/
theorem hasMember_key_fuel : ∀ (n : ℕ) (fs : JsonMembers), membersLength fs ≤ n →
    ∀ k v, hasMember fs k v → k ∈ memberKeys fs := by
  intro n
  induction n with
  | zero =>
    intro fs hle k v h
    cases fs with
    | nil => exact h.elim
    | cons k0 v0 fs => simp [membersLength] at hle
  | succ n ih =>
    intro fs hle k v h
    cases fs with
    | nil => exact h.elim
    | cons k0 v0 fs =>
      rcases h with ⟨hk, -⟩ | h
      · exact hk ▸ List.mem_cons_self _ _
      · refine List.mem_cons_of_mem _ (ih fs ?_ k v h)
        simp only [membersLength] at hle
        omega

/-- A member's key occurs among the dict keys. -/
theorem hasMember_key (fs : JsonMembers) (k : List Char) (v : Json)
    (h : hasMember fs k v) : k ∈ memberKeys fs :=
  hasMember_key_fuel (membersLength fs) fs (by omega) k v h

/-- With pairwise distinct keys, looking a member's key up in its own list
returns that member's value. -/
theorem lookup_self_fuel : ∀ (n : ℕ) (fs : JsonMembers),
    membersLength fs ≤ n → distinctKeys (memberKeys fs) = true →
    ∀ k v, hasMember fs k v → lookupMember k fs = some v := by
  intro n
  induction n with
  | zero =>
    intro fs hle hnd k v h
    cases fs with
    | nil => exact h.elim
    | cons k0 v0 fs => simp [membersLength] at hle
  | succ n ih =>
    intro fs hle hnd k v h
    cases fs with
    | nil => exact h.elim
    | cons k0 v0 fs =>
      have hnd' : ((memberKeys fs).contains k0 = false) ∧
          distinctKeys (memberKeys fs) = true := by
        simpa [memberKeys, distinctKeys] using hnd
      have hnotin : k0 ∉ memberKeys fs := by
        simpa using hnd'.1
      rcases h with ⟨hk, hv⟩ | h
      · subst hk
        simp [lookupMember, hv]
      · have hne : ¬k0 = k := by
          intro he
          exact hnotin (he ▸ hasMember_key fs k v h)
        simp only [lookupMember, if_neg hne]
        refine ih fs ?_ hnd'.2 k v h
        simp only [membersLength] at hle
        omega

/-- Key lookup on a distinct-keyed member list finds each member. -/
theorem lookup_self (fs : JsonMembers) (hnd : distinctKeys (memberKeys fs) = true) :
    ∀ k v, hasMember fs k v → lookupMember k fs = some v :=
  lookup_self_fuel (membersLength fs) fs (by omega) hnd

/-- Python `==` is reflexive on NaN-free decoded payloads (dict keys are
pairwise distinct), by induction on the value's size. -/
theorem pyEq_refl_fuel (n : ℕ) :
    (∀ j : Json, sizeOf j < n → nanFree j = true → keysOK j = true →
      pyEqJson j j = true) ∧
    (∀ xs : JsonItems, sizeOf xs < n → nanFreeItems xs = true →
      keysOKItems xs = true → pyEqItems xs xs = true) ∧
    (∀ fs gs : JsonMembers, sizeOf fs < n →
      (∀ k v, hasMember fs k v → lookupMember k gs = some v) →
      nanFreeMembers fs = true → keysOKMembers fs = true →
      pyEqMembersIn fs gs = true) := by
  induction n with
  | zero =>
    exact ⟨fun j h => absurd h (by omega), fun xs h => absurd h (by omega),
      fun fs gs h => absurd h (by omega)⟩
  | succ n ih =>
    obtain ⟨ihJ, ihI, ihM⟩ := ih
    refine ⟨?_, ?_, ?_⟩
    · intro j hsz hnan hkeys
      cases j with
      | jnull => rfl
      | jbool b => cases b <;> rfl
      | jint m => simp [pyEqJson, asNum, pyNumEq]
      | jfloat x =>
        cases x with
        | dec m k => simp [pyEqJson, asNum, pyNumEq]
        | inf => rfl
        | neginf => rfl
        | nan => exact absurd hnan (by simp [nanFree])
      | jstr s => simp [pyEqJson]
      | jarr xs =>
        have hspec := Json.jarr.sizeOf_spec xs
        have hsz2 : sizeOf xs < n := by omega
        simp only [pyEqJson]
        exact ihI xs hsz2 (by simpa [nanFree] using hnan) (by simpa [keysOK] using hkeys)
      | jobj fs =>
        have hspec := Json.jobj.sizeOf_spec fs
        have hsz2 : sizeOf fs < n := by omega
        have hk : distinctKeys (memberKeys fs) = true ∧ keysOKMembers fs = true := by
          simpa [keysOK] using hkeys
        simp only [pyEqJson, Bool.and_eq_true]
        refine ⟨by simp, ?_⟩
        exact ihM fs fs hsz2 (lookup_self fs hk.1) (by simpa [nanFree] using hnan) hk.2
    · intro xs hsz hnan hkeys
      cases xs with
      | nil => rfl
      | cons x xs2 =>
        have hspec := JsonItems.cons.sizeOf_spec x xs2
        have h1 : sizeOf x < n := by omega
        have h2 : sizeOf xs2 < n := by omega
        obtain ⟨hn1, hn2⟩ : nanFree x = true ∧ nanFreeItems xs2 = true := by
          simpa [nanFreeItems] using hnan
        obtain ⟨hk1, hk2⟩ : keysOK x = true ∧ keysOKItems xs2 = true := by
          simpa [keysOKItems] using hkeys
        simp only [pyEqItems, Bool.and_eq_true]
        exact ⟨ihJ x h1 hn1 hk1, ihI xs2 h2 hn2 hk2⟩
    · intro fs gs hsz hlk hnan hkeys
      cases fs with
      | nil => rfl
      | cons k v fs2 =>
        have hspec := JsonMembers.cons.sizeOf_spec k v fs2
        have h1 : sizeOf v < n := by omega
        have h2 : sizeOf fs2 < n := by omega
        obtain ⟨hn1, hn2⟩ : nanFree v = true ∧ nanFreeMembers fs2 = true := by
          simpa [nanFreeMembers] using hnan
        obtain ⟨hk1, hk2⟩ : keysOK v = true ∧ keysOKMembers fs2 = true := by
          simpa [keysOKMembers] using hkeys
        have hv := hlk k v (Or.inl ⟨rfl, rfl⟩)
        simp only [pyEqMembersIn, hv, Bool.and_eq_true]
        exact ⟨ihJ v h1 hn1 hk1,
          ihM fs2 gs h2 (fun k2 v2 hm => hlk k2 v2 (Or.inr hm)) hn2 hk2⟩

/-- Python `==` is reflexive on NaN-free payloads with distinct dict keys. -/
theorem pyEq_refl (j : Json) (h1 : nanFree j = true) (h2 : keysOK j = true) :
    pyEqJson j j = true :=
  (pyEq_refl_fuel (sizeOf j + 1)).1 j (by omega) h1 h2

/-- C10 (amended): storing a session with `set_state` and reading it back
with `get_state` returns the stored state string and the structurally
identical payload tree, which is Python-`==` to the stored dict whenever the
payload holds no NaN; a user id with no stored row reads back as
`("IDLE", dict())`.  At a NaN payload — reachable, since `parse_amount`
accepts `nan` — the read-back dict is not Python-`==` to the stored one (the
counterexample theorem), so the unqualified claim fails. -/
theorem session_state_roundtrip (db : StateDb) (u : Int) (st : String)
    (fields : JsonMembers) (hkeys : keysOK (Json.jobj fields) = true) :
    get_state (set_state db u st fields) u = (st, Json.jobj fields) ∧
    (nanFree (Json.jobj fields) = true →
      pyEqJson (get_state (set_state db u st fields) u).2 (Json.jobj fields) = true) ∧
    (db u = none → get_state db u = ("IDLE", Json.jobj JsonMembers.nil)) := by
  have hl : loads (String.mk (dumpsVal (Json.jobj fields))).data
      = some (Json.jobj fields) := loads_dumps (Json.jobj fields)
  have hl2 : loads (dumpsVal (Json.jobj fields)) = some (Json.jobj fields) :=
    loads_dumps (Json.jobj fields)
  have hne : ¬String.mk (dumpsVal (Json.jobj fields)) = "" := by
    intro hcontra
    have hdata : dumpsVal (Json.jobj fields) = [] := congrArg String.data hcontra
    have h1 := dumpsVal_length_pos (Json.jobj fields)
    rw [hdata] at h1
    simp at h1
  have hget : get_state (set_state db u st fields) u = (st, Json.jobj fields) := by
    simp [get_state, set_state, hne, hl, hl2]
  refine ⟨hget, ?_, ?_⟩
  · intro hnan
    rw [hget]
    exact pyEq_refl (Json.jobj fields) hnan hkeys
  · intro h
    simp [get_state, h]

/-- Witness for C10 at a concrete user row and payload with a float amount. -/
theorem session_state_roundtrip_witness :
    keysOK (Json.jobj wFields) = true ∧
    (get_state (set_state wDb 7 "CONFIRM" wFields) 7 = ("CONFIRM", Json.jobj wFields) ∧
      (nanFree (Json.jobj wFields) = true →
        pyEqJson (get_state (set_state wDb 7 "CONFIRM" wFields) 7).2
          (Json.jobj wFields) = true) ∧
      (wDb 7 = none → get_state wDb 7 = ("IDLE", Json.jobj JsonMembers.nil))) :=
  ⟨by decide, session_state_roundtrip wDb 7 "CONFIRM" wFields (by decide)⟩

set_option maxRecDepth 100000 in
/-- C10 (counterexample): at a payload carrying the NaN amount the program
can reach, `get_state` after `set_state` returns the structurally identical
dict — yet that dict is not Python-`==` to the stored payload, because
`json.loads` builds a fresh `nan` and `nan != nan`; "returns exactly
`(state, payload)`" fails under Python equality. -/
theorem nan_payload_roundtrip_not_python_equal :
    get_state (set_state wDb 7 "CONFIRM" nanFields) 7 = ("CONFIRM", Json.jobj nanFields) ∧
    pyEqJson (get_state (set_state wDb 7 "CONFIRM" nanFields) 7).2
      (Json.jobj nanFields) = false := by
  constructor
  · rfl
  · rfl
